import Mathlib

/-!
# Verification of the `DomBackup` lifecycle of virt-backup

This file gives a shallow embedding of `virt_backup/backups/pending.py`
(class `DomBackup`) and proves properties of its backup lifecycle:
the `start()` state machine, the pending-ledger crash-recovery protocol,
`clean_aborted()`, `add_disks()`, `merge_with()`, and construction.

Python dictionaries are embedded as insertion-ordered association lists
(CPython dicts preserve insertion order, which the code relies on for the
per-disk processing order).  Machine state that the code only touches
through collaborators (the file system, the snapshot coordinator) is made
explicit in a `World` record, and every run additionally produces a trace
of events so that temporal claims (ordering of ledger writes, disk copies
and snapshot releases) can be stated.  Fallible primitives (snapshot
creation, file copy, block pivot, file writes during finalization) are
driven by an explicit fault oracle, which models the exceptions the code
can encounter mid-run.
-/

/-- Association-list lookup, the embedding of Python `d[k]` / `d.get(k)`
for string-keyed dicts. -/
def alookup {α : Type} : List (String × α) → String → Option α
  | [], _ => none
  | (k, v) :: rest, key => if k == key then some v else alookup rest key

/-- Python `k in d`. -/
def acontains {α : Type} (l : List (String × α)) (k : String) : Bool :=
  (alookup l k).isSome

/-- Python `d[k] = v`: replaces in place when the key exists (keeping its
position, as CPython dicts do), appends otherwise. -/
def aset {α : Type} (l : List (String × α)) (k : String) (v : α) : List (String × α) :=
  if acontains l k then l.map (fun p => if p.1 == k then (k, v) else p)
  else l ++ [(k, v)]

/-- Python `d1.update(d2)`. -/
def aupdate {α : Type} (l : List (String × α)) (l2 : List (String × α)) : List (String × α) :=
  l2.foldl (fun acc p => aset acc p.1 p.2) l

/-- Python truthiness of an optional string (`None` and `""` are falsy). -/
def pyTruthyStr : Option String → Bool
  | none => false
  | some s => s != ""

/-- Python truthiness of an optional integer (`None` and `0` are falsy). -/
def pyTruthyInt : Option Int → Bool
  | none => false
  | some n => n != 0

/-- Python truthiness of an optional dict (`None` and `{}` are falsy). -/
def pyTruthyList {α : Type} : Option (List α) → Bool
  | none => false
  | some l => !l.isEmpty

/-- `os.path.join` for the single-separator uses in this code. -/
def pathJoin (a b : String) : String := a ++ "/" ++ b

/-- `os.path.basename`: the component after the last separator. -/
def basename (p : String) : String :=
  ⟨p.data.foldl (fun acc c => if c == '/' then [] else acc ++ [c]) []⟩

/-- One disk of a domain, as stored in `self.disks`:
`{"src": disk_path, "type": disk_format}`. -/
structure DiskProps where
  src : String
  type : String
deriving DecidableEq, Repr

/-- A libvirt domain handle, reduced to the observations the code makes of
it: `ID()`, `name()`, `XMLDesc()` and the disks currently attached (the
result of the disk enumerator, see `getSelfDomainDisks`). -/
structure Domain where
  id : Nat
  name : String
  xml : String
  attachedDisks : List (String × DiskProps)
deriving DecidableEq, Repr

/-- Per-disk entry of the pending ledger:
`{"src": ..., "snapshot": ...}`, later extended with `"target"`. -/
structure PendingDisk where
  src : String
  snapshot : String
  target : Option String := none
deriving DecidableEq, Repr

/-- The pending ledger (`self.pending_info`), a JSON dict.  A fresh
`DomBackup` holds the empty dict; fields that a given dict does not have
are `none`/defaulted here (`pending_info["date"]` on the empty dict is the
`KeyError` that `clean_aborted` guards against). -/
structure PendingInfo where
  compression : Option String := none
  compression_lvl : Option Int := none
  domain_id : Nat := 0
  domain_name : String := ""
  domain_xml : String := ""
  version : String := ""
  date : Option Nat := none
  disks : Option (List (String × PendingDisk)) := none
  tar : Option String := none
deriving DecidableEq, Repr

/-- The backup definition built by `get_definition` and completed during
`start` (`"date"`, `"disks"`, `"tar"`). -/
structure Definition where
  compression : Option String := none
  compression_lvl : Option Int := none
  domain_id : Nat := 0
  domain_name : String := ""
  domain_xml : String := ""
  version : String := ""
  date : Option Nat := none
  disks : List (String × String) := []
  tar : Option String := none
deriving DecidableEq, Repr

/-- Per-disk snapshot metadata returned by the snapshot coordinator. -/
structure SnapDiskMeta where
  src : String
  snapshot : String
deriving DecidableEq, Repr

/-- `DomExtSnapshot.metadatas`: the dict `{"date": ..., "disks": {...}}`.
The reconstruction in `clean_aborted` builds it without a `"date"` key,
hence the optional date. -/
structure SnapshotMetadata where
  date : Option Nat := none
  disks : List (String × SnapDiskMeta) := []
deriving DecidableEq, Repr

/-- Modelled from the spec: the SnapshotCoordinator (`DomExtSnapshot`,
whose module is not part of the sources here).  Per the spec it is
"constructible either fresh (needs machine handle + disk map + timeout) or
from a minimal ledger-derived state", and carries the snapshot metadata of
the snapshots it owns.  Only the state the backup code observes is kept. -/
structure DomExtSnapshot where
  disks : List (String × DiskProps)
  timeout : Option Int := none
  metadatas : Option SnapshotMetadata := none
deriving DecidableEq, Repr

/-- The on-disk artifacts of one job: data files (disk images, archive) as a
set of paths, plus the job's pending-ledger file and definition file with
their parsed contents. -/
structure FS where
  files : List String := []
  ledger : Option PendingInfo := none
  definitionFile : Option Definition := none
deriving DecidableEq, Repr

/-- The world outside the process: the file system, the set of disk devices
that currently have a live external snapshot, and the current time (the
timestamp the snapshot coordinator stamps a new snapshot with). -/
structure World where
  fs : FS := {}
  openSnaps : List String := []
  now : Nat := 0
deriving DecidableEq, Repr

/-- The `DomBackup` object (its attributes set by `__init__`). -/
structure DomBackup where
  dom : Option Domain
  target_dir : Option String := none
  disks : List (String × DiskProps) := []
  compression : Option String := some ("tar")
  compression_lvl : Option Int := none
  timeout : Option Int := none
  ext_snapshot_helper : Option DomExtSnapshot := none
  callbacks_registrer : Bool := true
  pending_info : PendingInfo := {}
  running : Bool := false
deriving DecidableEq, Repr

/-- The exceptions the embedded code can raise.  The two `assert`
statements of `start` are named after the spec's error taxonomy:
`alreadyRunningError` is the `AssertionError` of `assert not self.running`,
`preconditionError` the one of `assert self.dom and self.target_dir`, and
`archiveExistsError` is the `FileExistsError` of `get_new_tar`. -/
inductive BErr where
  | alreadyRunningError
  | preconditionError
  | snapshotFailed
  | archiveExistsError
  | copyFailed (dev : String)
  | pivotFailed (dev : String)
  | definitionWriteFailed
  | postBackupFailed
  | keyError
  | typeError
  | fileNotFoundError
  | attributeError
  | unknownDiskError
deriving DecidableEq, Repr

/-- Observable events of a run, recorded in order. -/
inductive Ev where
  /-- external snapshots of all selected disks taken -/
  | snap
  /-- `_dump_pending_info`: the pending ledger written with this content -/
  | writeLedger (pi : PendingInfo)
  /-- `get_new_tar` opened (and created) the archive at this path -/
  | openArchive (path : String)
  /-- `pending_info["disks"][dev]["target"]` assigned -/
  | recordTarget (dev : String)
  /-- `pending_info["tar"]` assigned -/
  | recordTar
  /-- the image of this disk copied (into the archive or as a file) -/
  | copyDisk (dev : String)
  /-- `clean_for_disk`: this disk's snapshot resources released -/
  | cleanForDisk (dev : String)
  /-- `_dump_json_definition`: the definition file written -/
  | writeDefinition
  /-- `post_backup` completed -/
  | postBackup
  /-- `clean_aborted` invoked -/
  | cleanAbortedRun
  /-- `DomExtSnapshot.clean()`: all remaining snapshot resources released -/
  | releaseSnapshots
  /-- a data file deleted during cleanup -/
  | deleteFile (path : String)
  /-- `_clean_pending_info`: the pending-ledger file removed -/
  | deleteLedger
  /-- an exception with this error raised at this point of the run -/
  | failed (e : BErr)
deriving DecidableEq, Repr

/-- Full state of a run: the object, the world, and the event trace. -/
structure S where
  b : DomBackup
  w : World
  tr : List Ev := []
deriving DecidableEq, Repr

/-- The fault oracle: which fallible primitives raise during this run.
`deleteFail` drives the best-effort deletions of cleanup
(`_delete_with_error_printing`). -/
structure Faults where
  snap : Bool := false
  copy : String → Bool := fun _ => false
  pivot : String → Bool := fun _ => false
  dumpDef : Bool := false
  post : Bool := false
  deleteFail : String → Bool := fun _ => false

/-- Raise an exception: record where it happened and propagate. -/
def raiseAt {α : Type} (e : BErr) (s : S) : Except (BErr × S) α :=
  .error (e, { s with tr := s.tr ++ [.failed e] })

/-- `virt_backup.VERSION` (defined in the package root, constant here). -/
def toolVersion : String := "0.1.0"

/-- Stand-in for `snapdate.strftime("%Y%m%d-%H%M%S")`: an injective
rendering of the snapshot timestamp. -/
def formatTimestamp (ts : Nat) : String := toString ts

/-- `_main_backup_name_format`: `"{}_{}_{}".format(str_snapdate,
self.dom.ID(), self.dom.name())`. -/
def mainBackupNameFormat (domId : Nat) (domName : String) (snapdate : Nat) : String :=
  formatTimestamp snapdate ++ "_" ++ toString domId ++ "_" ++ domName

/-- `_disk_backup_name_format`: `"{}_{}".format(main, disk_name)`. -/
def diskBackupNameFormat (domId : Nat) (domName : String) (snapdate : Nat)
    (diskName : String) : String :=
  mainBackupNameFormat domId domName snapdate ++ "_" ++ diskName

/-- Modelled from the spec: the snapshot file path the coordinator chooses
for a disk (the spec only requires that per-disk snapshot paths are
recorded; a deterministic path derived from the source suffices here). -/
def snapPathOf (src : String) : String := src ++ ".snap"

/-- Modelled from the spec: `SnapshotCoordinator.start(disks) →
{timestamp, perDiskSnapshotMetadata}` — snapshots all selected disks
atomically, stamping the current instant. -/
def domExtSnapshotStart (h : DomExtSnapshot) (w : World) (fail : Bool) :
    Except BErr (SnapshotMetadata × DomExtSnapshot × World) :=
  if fail then .error .snapshotFailed
  else
    let md : SnapshotMetadata :=
      { date := some w.now
        disks := h.disks.map (fun dp => (dp.1, { src := dp.2.src, snapshot := snapPathOf dp.2.src })) }
    .ok (md, { h with metadatas := some md },
         { w with openSnaps := w.openSnaps ++ h.disks.map (fun dp => dp.1) })

/-- Modelled from the spec: `SnapshotCoordinator.cleanForDisk(devName)` —
releases that one disk's snapshot resources and drops it from the
coordinator's metadata. -/
def domExtSnapshotCleanForDisk (h : DomExtSnapshot) (w : World) (dev : String) :
    DomExtSnapshot × World :=
  ({ h with metadatas := (h.metadatas.map
      (fun md => { md with disks := md.disks.filter (fun p => p.1 != dev) })) },
   { w with openSnaps := w.openSnaps.filter (fun d => d != dev) })

/-- Modelled from the spec: `SnapshotCoordinator.clean()` — "idempotent,
releases all remaining snapshot resources" recorded in its metadata. -/
def domExtSnapshotClean (h : DomExtSnapshot) (w : World) : DomExtSnapshot × World :=
  match h.metadatas with
  | none => (h, w)
  | some md =>
    ({ h with metadatas := none },
     { w with openSnaps := w.openSnaps.filter (fun d => !(md.disks.any (fun p => p.1 == d))) })

/-- Modelled from the spec: the disk enumerator behind
`_get_self_domain_disks` (defined on `_BaseDomBackup`, outside these
sources): "given a machine's descriptor, returns the current
`devName → {sourcePath, format}` mapping", filtered to the requested device
names when given, failing (`UnknownDiskError`) on a name that is not
attached. -/
def getSelfDomainDisks (dom : Domain) (filterDevs : List String) :
    Except BErr (List (String × DiskProps)) :=
  if filterDevs.isEmpty then .ok dom.attachedDisks
  else if filterDevs.all (fun d => acontains dom.attachedDisks d) then
    .ok (dom.attachedDisks.filter (fun p => filterDevs.contains p.1))
  else .error .unknownDiskError

/-- `DomBackup.__init__`.  `dev_disks` and `disks` carry the device names
of the two constructor arguments (the `disks` dict argument is iterated by
key by `self._get_self_domain_disks(*disks)`); `conn` models whether an
explicit connection was passed (its only effect in scope: `self.dom._conn`
raises `AttributeError` when both `conn` and `dom` are `None`). -/
def mkDomBackup (dom : Option Domain) (target_dir : Option String)
    (dev_disks : List String) (compression : Option String)
    (compression_lvl : Option Int) (conn : Bool) (timeout : Option Int)
    (disks : List String) (ext_snapshot_helper : Option DomExtSnapshot)
    (callbacks_registrer : Bool) : Except BErr DomBackup :=
  let resolve : List String → List (String × DiskProps) → Except BErr (List (String × DiskProps)) :=
    fun req acc =>
      if req.isEmpty then .ok acc
      else match dom with
        | none => .error .attributeError
        | some d =>
          match getSelfDomainDisks d req with
          | .error e => .error e
          | .ok r => .ok (aupdate acc r)
  match resolve dev_disks [] with
  | .error e => .error e
  | .ok d1 =>
    match resolve disks d1 with
    | .error e => .error e
    | .ok d2 =>
      match (if d2.isEmpty then
               (match dom with
                | none => Except.error BErr.attributeError
                | some d => getSelfDomainDisks d [])
             else Except.ok d2) with
      | .error e => .error e
      | .ok d3 =>
        if !conn && dom.isNone then .error .attributeError
        else if !(ext_snapshot_helper.isSome || callbacks_registrer) then .error .attributeError
        else .ok { dom := dom, target_dir := target_dir, disks := d3,
                   compression := compression, compression_lvl := compression_lvl,
                   timeout := timeout, ext_snapshot_helper := ext_snapshot_helper,
                   callbacks_registrer := callbacks_registrer,
                   pending_info := {}, running := false }

/-- The `for dev in dev_disks` loop of `add_disks`: skip devices already
tracked, else index the freshly resolved mapping (`KeyError` on a miss)
and append. -/
def add_disks_fold (dom_all : List (String × DiskProps)) (devs : List String)
    (acc : List (String × DiskProps)) : Except BErr (List (String × DiskProps)) :=
  devs.foldlM (fun acc dev =>
    if acontains acc dev then pure acc
    else match alookup dom_all dev with
      | some v => pure (acc ++ [(dev, v)])
      | none => throw BErr.keyError) acc

/-- `DomBackup.add_disks(*dev_disks)`: re-resolve the machine's current
disk set; with no argument, replace `self.disks` by it wholesale; then add
each requested device not already tracked. -/
def DomBackup.add_disks (b : DomBackup) (dev_disks : List String) :
    Except BErr DomBackup :=
  match b.dom with
  | none => .error .attributeError
  | some dom =>
    let dom_all_disks := dom.attachedDisks
    let disks0 := if dev_disks.isEmpty then dom_all_disks else b.disks
    match add_disks_fold dom_all_disks dev_disks disks0 with
    | .error e => .error e
    | .ok disksF => .ok { b with disks := disksF }

/-- `self.timeout or dombackup.timeout` (Python truthiness). -/
def pyOrTimeout (a b : Option Int) : Option Int :=
  if pyTruthyInt a then a else b

/-- `DomBackup.merge_with(dombackup)`. -/
def DomBackup.merge_with (b other : DomBackup) : Except BErr DomBackup :=
  match b.add_disks (other.disks.map (fun p => p.1)) with
  | .error e => .error e
  | .ok b1 => .ok { b1 with timeout := pyOrTimeout b.timeout other.timeout }

/-- `DomBackup.get_definition`. -/
def DomBackup.get_definition (b : DomBackup) (dom : Domain) : Definition :=
  { compression := b.compression, compression_lvl := b.compression_lvl,
    domain_id := dom.id, domain_name := dom.name, domain_xml := dom.xml,
    version := toolVersion }

/-- `DomBackup.get_complete_path_of(filename)`:
`os.path.join(self.target_dir, filename)` (`none` when `target_dir` is
unset, at which point Python would raise `TypeError`). -/
def DomBackup.get_complete_path_of (b : DomBackup) (filename : String) : Option String :=
  b.target_dir.map (fun td => pathJoin td filename)

/-- `pending_info["disks"][disk]["target"] = target_img` (the key is known
to exist; `backup_disk` checks it and raises `KeyError` otherwise): update
the value stored at the key in place. -/
def setDiskTarget : List (String × PendingDisk) → String → String → List (String × PendingDisk)
  | [], _, _ => []
  | (k, pd) :: rest, d, t =>
    if k == d then (k, { pd with target := some t }) :: setDiskTarget rest d t
    else (k, pd) :: setDiskTarget rest d t

/-- File creation: `open(path, "wb")` overwrites, so the path set gains the
path if absent. -/
def addFile (files : List String) (p : String) : List String :=
  if files.contains p then files else files ++ [p]

/-- `DomBackup._dump_pending_info`: serialize `self.pending_info` to the
`<name>.json.pending` file. -/
def DomBackup.dump_pending_info (s : S) : S :=
  { s with w.fs.ledger := some s.b.pending_info,
           tr := s.tr ++ [.writeLedger s.b.pending_info] }

/-- `DomBackup._clean_pending_info`: `os.remove` the pending file (the path
computation reads `pending_info["date"]`, raising `KeyError` on the empty
dict; `os.remove` on a missing file raises `FileNotFoundError`) and reset
`self.pending_info` to the empty dict. -/
def DomBackup.clean_pending_info (s : S) : Except (BErr × S) S :=
  match s.b.pending_info.date with
  | none => .error (.keyError, s)
  | some _ =>
    match s.w.fs.ledger with
    | none => .error (.fileNotFoundError, s)
    | some _ =>
      .ok { s with w.fs.ledger := none, b.pending_info := {},
                   tr := s.tr ++ [.deleteLedger] }

/-- The pending ledger built in `_snapshot_and_save_date`:
`definition.copy()` with `"disks"` replaced by
`{disk: {"src": prop["src"], "snapshot": metadatas["disks"][disk]["snapshot"]}}`
over `self.disks` (the coordinator returns metadata for every requested
disk, so the lookup is total in a run). -/
def pendingOf (defn : Definition) (disks : List (String × DiskProps))
    (md : SnapshotMetadata) : PendingInfo :=
  { compression := defn.compression, compression_lvl := defn.compression_lvl,
    domain_id := defn.domain_id, domain_name := defn.domain_name,
    domain_xml := defn.domain_xml, version := defn.version, date := defn.date,
    disks := some (disks.map (fun dp =>
      (dp.1, { src := dp.2.src,
               snapshot := ((alookup md.disks dp.1).map (fun m => m.snapshot)).getD (""),
               target := none }))),
    tar := none }

/-- `DomBackup._snapshot_and_save_date(definition)`: snapshot all disks,
stamp the definition's date with the snapshot timestamp, populate
`self.pending_info` and persist it.  Returns `(snapshot_date, definition)`. -/
def DomBackup.snapshot_and_save_date (f : Faults) (defn : Definition) (s : S) :
    Except (BErr × S) (Nat × Definition × S) :=
  match s.b.ext_snapshot_helper with
  | none => raiseAt .attributeError s
  | some h =>
    match domExtSnapshotStart h s.w f.snap with
    | .error e => raiseAt e s
    | .ok (md, h2, w2) =>
      let s := { s with b.ext_snapshot_helper := some h2, w := w2,
                        tr := s.tr ++ [.snap] }
      match md.date with
      | none => raiseAt .keyError s
      | some dt =>
        let defn := { defn with date := some dt }
        let s := { s with b.pending_info := pendingOf defn s.b.disks md }
        let s := DomBackup.dump_pending_info s
        .ok (dt, defn, s)

/-- The `backup_target` of a run: the plain target directory when
`self.compression is None`, an open tar archive otherwise. -/
inductive BackupTarget where
  | dir (path : String)
  | tarFile (path : String)
deriving DecidableEq, Repr

/-- `DomBackup.get_new_tar(target, snapshot_date)`: compute the canonical
archive path (`tar` extension for modes `None`/`"tar"`, `tar.<mode>`
otherwise; the per-mode `compresslevel`/`preset` arguments do not affect
the artifacts modelled here), fail with `FileExistsError`
(`archiveExistsError`) when the path already exists, else create and open
the archive there. -/
def archiveExtension (compression : Option String) : String :=
  if compression == none || compression == some ("tar") then "tar"
  else "tar." ++ compression.getD ("")

/-- The canonical archive path of a run: `os.path.join(target,
"{}.{}".format(main_backup_name_format(snapshot_date), extension))`. -/
def canonicalArchivePath (compression : Option String) (dom : Domain)
    (target : String) (snapshot_date : Nat) : String :=
  pathJoin target
    (mainBackupNameFormat dom.id dom.name snapshot_date ++ "." ++ archiveExtension compression)

def DomBackup.get_new_tar (b : DomBackup) (dom : Domain) (target : String)
    (snapshot_date : Nat) (w : World) : Except BErr (String × World) :=
  let complete_path := canonicalArchivePath b.compression dom target snapshot_date
  if w.fs.files.contains complete_path then .error .archiveExistsError
  else .ok (complete_path, { w with fs.files := w.fs.files ++ [complete_path] })

/-- `DomBackup._add_img_to_tarfile(img, target, target_filename)`: record
the archive's basename in the pending ledger, persist it, then append the
image to the archive (`target.fileobj.name`, or `.fileobj._fp.name` for
xz, is the archive path either way).  The extraction fault of the oracle
models an I/O failure of `target.add`. -/
def DomBackup.add_img_to_tarfile (f : Faults) (dev : String) (_img : String)
    (tarPath : String) (_target_filename : String) (s : S) :
    Except (BErr × S) (String × S) :=
  let backup_path := tarPath
  let s := { s with b.pending_info.tar := some (basename backup_path),
                    tr := s.tr ++ [.recordTar] }
  let s := DomBackup.dump_pending_info s
  if f.copy dev then raiseAt (.copyFailed dev) s
  else .ok (backup_path, { s with tr := s.tr ++ [.copyDisk dev] })

/-- `DomBackup._copy_img_to_file(img, target, target_filename)`: copy the
image as `target/target_filename` (directory creation is not modelled). -/
def DomBackup.copy_img_to_file (f : Faults) (dev : String) (_img : String)
    (targetDir : String) (target_filename : String) (s : S) :
    Except (BErr × S) (String × S) :=
  let target := pathJoin targetDir target_filename
  if f.copy dev then raiseAt (.copyFailed dev) s
  else .ok (target, { s with w.fs.files := addFile s.w.fs.files target,
                             tr := s.tr ++ [.copyDisk dev] })

/-- `DomBackup.backup_img(disk, target, target_filename)` (the `dev`
argument only instruments the trace with the device being copied). -/
def DomBackup.backup_img (f : Faults) (dev : String) (img : String)
    (bt : BackupTarget) (target_filename : String) (s : S) :
    Except (BErr × S) (String × S) :=
  if pyTruthyStr s.b.compression then
    match bt with
    | .tarFile p => DomBackup.add_img_to_tarfile f dev img p target_filename s
    | .dir _ => raiseAt .typeError s
  else
    match bt with
    | .dir p => DomBackup.copy_img_to_file f dev img p target_filename s
    | .tarFile _ => raiseAt .typeError s

/-- `DomBackup._backup_disk(disk, disk_properties, backup_target,
definition)`: record the disk's target filename in the pending ledger,
persist the ledger, record it in the definition, copy the image, and (in
archive mode) record the archive name in the definition. -/
def DomBackup.backup_disk (f : Faults) (dom : Domain) (disk : String)
    (prop : DiskProps) (bt : BackupTarget) (defn : Definition) (s : S) :
    Except (BErr × S) (Definition × S) :=
  match defn.date with
  | none => raiseAt .keyError s
  | some snapshot_date =>
    let target_img := diskBackupNameFormat dom.id dom.name snapshot_date disk
        ++ "." ++ prop.type
    match s.b.pending_info.disks with
    | none => raiseAt .keyError s
    | some pdisks =>
      if !(acontains pdisks disk) then raiseAt .keyError s
      else
        let s := { s with b.pending_info.disks := some (setDiskTarget pdisks disk target_img),
                          tr := s.tr ++ [.recordTarget disk] }
        let s := DomBackup.dump_pending_info s
        let defn := { defn with disks := aset defn.disks disk target_img }
        match DomBackup.backup_img f disk prop.src bt target_img s with
        | .error es => .error es
        | .ok (backup_path, s) =>
          let defn :=
            if pyTruthyStr s.b.compression then
              (if pyTruthyStr defn.tar then defn
               else { defn with tar := some (basename backup_path) })
            else defn
          .ok (defn, s)

/-- `self._ext_snapshot_helper.clean_for_disk(disk)` in the loop of
`start`; a block-pivot failure or timeout surfaces here. -/
def DomBackup.clean_for_disk_step (f : Faults) (disk : String) (s : S) :
    Except (BErr × S) S :=
  match s.b.ext_snapshot_helper with
  | none => raiseAt .attributeError s
  | some h =>
    if f.pivot disk then raiseAt (.pivotFailed disk) s
    else
      let hw := domExtSnapshotCleanForDisk h s.w disk
      .ok { s with b.ext_snapshot_helper := some hw.1, w := hw.2,
                   tr := s.tr ++ [.cleanForDisk disk] }

/-- The per-disk loop of `start`:
`for disk, prop in self.disks.items(): self._backup_disk(...); self._ext_snapshot_helper.clean_for_disk(disk)`. -/
def DomBackup.backup_loop (f : Faults) (dom : Domain) (bt : BackupTarget) :
    List (String × DiskProps) → Definition → S → Except (BErr × S) (Definition × S)
  | [], defn, s => .ok (defn, s)
  | (disk, prop) :: rest, defn, s =>
    match DomBackup.backup_disk f dom disk prop bt defn s with
    | .error es => .error es
    | .ok (defn2, s2) =>
      match DomBackup.clean_for_disk_step f disk s2 with
      | .error es => .error es
      | .ok s3 => DomBackup.backup_loop f dom bt rest defn2 s3

/-- `DomBackup._dump_json_definition(definition)`: write the definition
file (its path reads `definition["date"]`). -/
def DomBackup.dump_json_definition (f : Faults) (defn : Definition) (s : S) :
    Except (BErr × S) S :=
  match defn.date with
  | none => raiseAt .keyError s
  | some _ =>
    if f.dumpDef then raiseAt .definitionWriteFailed s
    else .ok { s with w.fs.definitionFile := some defn,
                      tr := s.tr ++ [.writeDefinition] }

/-- `DomBackup.post_backup(backup_target)`: release all remaining snapshot
resources and drop the helper, close the archive (its failure is the
finalization fault), clear the running flag. -/
def DomBackup.post_backup (f : Faults) (s : S) : Except (BErr × S) S :=
  let s : S := match s.b.ext_snapshot_helper with
    | some h =>
      let hw := domExtSnapshotClean h s.w
      { s with b.ext_snapshot_helper := none, w := hw.2,
               tr := s.tr ++ [.releaseSnapshots] }
    | none => s
  if f.post then raiseAt .postBackupFailed s
  else .ok { s with b.running := false, tr := s.tr ++ [.postBackup] }

/-- Modelled from the spec: `_BaseDomBackup._delete_with_error_printing`
(defined outside these sources): best-effort deletion — "file-deletion
errors are logged, not fatal". -/
def deleteWithErrorPrinting (f : Faults) (path : String) (s : S) : S :=
  if f.deleteFail path then s
  else { s with w.fs.files := s.w.fs.files.filter (fun q => q != path),
                tr := s.tr ++ [.deleteFile path] }

/-- `DomBackup._clean_aborted_tar`. -/
def DomBackup.clean_aborted_tar (f : Faults) (s : S) : Except (BErr × S) S :=
  match s.b.pending_info.tar with
  | none => .error (.keyError, s)
  | some t =>
    match DomBackup.get_complete_path_of s.b t with
    | none => .error (.typeError, s)
    | some tar_path =>
      if s.w.fs.files.contains tar_path then .ok (deleteWithErrorPrinting f tar_path s)
      else .ok s

/-- The loop of `_clean_aborted_non_tar_img` over
`self.pending_info.get("disks", {}).values()`. -/
def DomBackup.clean_targets (f : Faults) :
    List (String × PendingDisk) → S → Except (BErr × S) S
  | [], s => .ok s
  | (_, pd) :: rest, s =>
    if !(pyTruthyStr pd.target) then DomBackup.clean_targets f rest s
    else
      match DomBackup.get_complete_path_of s.b (pd.target.getD ("")) with
      | none => .error (.typeError, s)
      | some p =>
        let s := if s.w.fs.files.contains p then deleteWithErrorPrinting f p s else s
        DomBackup.clean_targets f rest s

/-- `DomBackup._clean_aborted_non_tar_img`. -/
def DomBackup.clean_aborted_non_tar_img (f : Faults) (s : S) :
    Except (BErr × S) S :=
  DomBackup.clean_targets f ((s.b.pending_info.disks).getD []) s

/-- The snapshot metadata `clean_aborted` reconstructs from the pending
ledger (`{"disks": {disk: {"src": ..., "snapshot": ...}}}`, no date). -/
def reconstructedMetadata (l : List (String × PendingDisk)) : SnapshotMetadata :=
  { date := none,
    disks := l.map (fun p => (p.1, { src := p.2.src, snapshot := p.2.snapshot })) }

/-- The `except KeyError: pass` around `_clean_pending_info()` in
`clean_aborted`. -/
def swallowKeyError (r : Except (BErr × S) S) : Except (BErr × S) S :=
  match r with
  | .ok s2 => .ok s2
  | .error (e, s2) => if e == .keyError then .ok s2 else .error (e, s2)

/-- The deletion phase of `clean_aborted`: delete the partially-written
archive (or the per-disk output files), then the pending-ledger file
(`KeyError` from an empty `pending_info` is swallowed). -/
def DomBackup.clean_aborted_phase2 (f : Faults) (s : S) : Except (BErr × S) S :=
  match (if pyTruthyStr s.b.pending_info.tar then DomBackup.clean_aborted_tar f s
         else DomBackup.clean_aborted_non_tar_img f s) with
  | .error es => .error es
  | .ok s => swallowKeyError (DomBackup.clean_pending_info s)

/-- `DomBackup.clean_aborted()`: reconstruct a snapshot coordinator from
the ledger when needed, release all snapshot resources, delete the
partially-written archive (or the per-disk output files), and finally
delete the pending-ledger file (`KeyError` from an empty `pending_info`
is swallowed). -/
def DomBackup.clean_aborted (f : Faults) (s : S) : Except (BErr × S) S :=
  let s : S := { s with tr := s.tr ++ [.cleanAbortedRun] }
  let s : S :=
    if s.b.ext_snapshot_helper.isNone && pyTruthyList s.b.pending_info.disks then
      { s with b.ext_snapshot_helper := (some
          { disks := s.b.disks, timeout := s.b.timeout,
            metadatas := some (reconstructedMetadata ((s.b.pending_info.disks).getD [])) }) }
    else s
  let s : S := match s.b.ext_snapshot_helper with
    | some h =>
      let hw := domExtSnapshotClean h s.w
      { s with b.ext_snapshot_helper := some hw.1, w := hw.2,
               tr := s.tr ++ [.releaseSnapshots] }
    | none => s
  DomBackup.clean_aborted_phase2 f s

/-- The finalization of a successful run: write the definition file,
release the remaining snapshot resources and close the archive, delete
the pending-ledger file. -/
def DomBackup.start_finish (f : Faults) (defn : Definition) (s : S) :
    Except (BErr × S) S :=
  match DomBackup.dump_json_definition f defn s with
  | .error es => .error es
  | .ok s =>
    match DomBackup.post_backup f s with
    | .error es => .error es
    | .ok s => DomBackup.clean_pending_info s

/-- The per-disk loop followed by the finalization steps — the second half
of the `try` body of `start`. -/
def DomBackup.loop_and_finish (f : Faults) (dom : Domain) (bt : BackupTarget)
    (ds : List (String × DiskProps)) (defn : Definition) (s : S) :
    Except (BErr × S) S :=
  match DomBackup.backup_loop f dom bt ds defn s with
  | .error es => .error es
  | .ok (defn, s) => DomBackup.start_finish f defn s

/-- The `try` body of `DomBackup.start` (everything from
`self._running = True` through `self._clean_pending_info()`). -/
def DomBackup.start_try_body (f : Faults) (dom : Domain) (td : String)
    (defn : Definition) (s : S) : Except (BErr × S) S :=
  let s : S := { s with b.running := true }
  let s : S := { s with b.ext_snapshot_helper :=
      (some { disks := s.b.disks, timeout := s.b.timeout, metadatas := none }) }
  match DomBackup.snapshot_and_save_date f defn s with
  | .error es => .error es
  | .ok (snapshot_date, defn, s) =>
    match (match s.b.compression with
      | none => Except.ok (BackupTarget.dir td, s)
      | some _ =>
        match DomBackup.get_new_tar s.b dom td snapshot_date s.w with
        | .error e => raiseAt e s
        | .ok (p, w2) =>
          .ok (BackupTarget.tarFile p, { s with w := w2, tr := s.tr ++ [Ev.openArchive p] })) with
    | .error es => .error es
    | .ok (bt, s) =>
      DomBackup.loop_and_finish f dom bt s.b.disks defn s

/-- `DomBackup.start()`: the two `assert` preconditions, then the `try`
body; on any exception `clean_aborted` then re-raise; `finally` clear the
running flag.  (The `os.mkdir` of a missing target directory has no
modelled effect since directories are not part of the artifact model.) -/
def DomBackup.start (f : Faults) (s : S) : Except (BErr × S) S :=
  if s.b.running then .error (.alreadyRunningError, s)
  else if !(s.b.dom.isSome && pyTruthyStr s.b.target_dir) then
    .error (.preconditionError, s)
  else
    match s.b.dom, s.b.target_dir with
    | some dom, some td =>
      let defn := { DomBackup.get_definition s.b dom with disks := [] }
      match DomBackup.start_try_body f dom td defn s with
      | .ok s1 => .ok { s1 with b.running := false }
      | .error (e, s1) =>
        match DomBackup.clean_aborted f s1 with
        | .ok s2 => .error (e, { s2 with b.running := false })
        | .error (e2, s2) => .error (e2, { s2 with b.running := false })
    | _, _ => .error (.preconditionError, s)

/-- A disk record as previously tracked by the job (C7/C8 examples). -/
def diskOld : DiskProps := ⟨"/images/old.qcow2", "qcow2"⟩

/-- The same device's record as currently attached to the machine. -/
def diskNew : DiskProps := ⟨"/images/new.qcow2", "qcow2"⟩

/-- A domain whose current disk set maps `vda` to `diskNew`. -/
def domNew : Domain := { id := 3, name := "vm7", xml := "<domain/>", attachedDisks := [("vda", diskNew)] }

/-- A job on `domNew` still tracking the stale record `diskOld` for `vda`. -/
def bStale : DomBackup := { dom := some domNew, disks := [("vda", diskOld)] }

/-- A job with an explicit zero timeout (a set, non-null value). -/
def bZeroTimeout : DomBackup :=
  { dom := some domNew, disks := [("vda", diskNew)], timeout := some 0 }

/-- A sibling job for the same machine with a five-second timeout. -/
def bFiveTimeout : DomBackup :=
  { dom := some domNew, disks := [("vda", diskNew)], timeout := some 5 }

/-- A machine with no disks attached. -/
def domDiskless : Domain := { id := 5, name := "vm5", xml := "<domain/>", attachedDisks := [] }

/-! ## Trace scanners

Boolean predicates over event traces, used to state the temporal claims
about a run. -/

/-- Events that must be immediately followed by a ledger write: the
snapshot step, and each per-disk state change of the pending dict. -/
def trigger : Ev → Bool
  | .snap => true
  | .recordTarget _ => true
  | .recordTar => true
  | _ => false

/-- Constraint a trace event imposes on its immediate successor. -/
def pairOk : Ev → Ev → Bool
  | .snap, .writeLedger _ => true
  | .snap, _ => false
  | .recordTarget _, .writeLedger _ => true
  | .recordTarget _, _ => false
  | .recordTar, .writeLedger _ => true
  | .recordTar, _ => false
  | _, _ => true

/-- `pairOk` against an optional successor: a trigger event with no
successor is a violation. -/
def pairOkO (e : Ev) : Option Ev → Bool
  | some e2 => pairOk e e2
  | none => !trigger e

/-- The head of `l`, or `nx` when `l` is empty: the event that follows the
current position. -/
def headOr (l : List Ev) (nx : Option Ev) : Option Ev :=
  match l with
  | [] => nx
  | e :: _ => some e

/-- Adjacency scanner with a lookahead: every trigger event in the list is
immediately followed by a ledger write, where `nx` is the event that
follows the end of the list (if any). -/
def adjOkW : List Ev → Option Ev → Bool
  | [], _ => true
  | e :: rest, nx => pairOkO e (headOr rest nx) && adjOkW rest nx

/-- Every snapshot event and every per-disk record event of the trace is
immediately followed by a ledger write. -/
def adjOk (l : List Ev) : Bool := adjOkW l none

/-- The ledger is never written before snapshotting has begun. -/
def noWriteBeforeSnap : List Ev → Bool
  | [] => true
  | .snap :: _ => true
  | .writeLedger _ :: _ => false
  | _ :: rest => noWriteBeforeSnap rest

/-- The ledger file is deleted only once deletion has become legitimate:
after the definition file was durably written (success path) or after
abort-and-cleanup has started (abort path). -/
def deleteOnlyAfter (allowed : Bool) : List Ev → Bool
  | [] => true
  | .writeDefinition :: rest => deleteOnlyAfter true rest
  | .cleanAbortedRun :: rest => deleteOnlyAfter true rest
  | .deleteLedger :: rest => allowed && deleteOnlyAfter allowed rest
  | _ :: rest => deleteOnlyAfter allowed rest

/-- Whether deletion has become legitimate after scanning `l`. -/
def delAllowedAfter (allowed : Bool) (l : List Ev) : Bool :=
  allowed || l.any (fun e => match e with
    | .writeDefinition => true
    | .cleanAbortedRun => true
    | _ => false)

/-- The disk-processing events of a trace. -/
def isDiskEv : Ev → Bool
  | .copyDisk _ => true
  | .cleanForDisk _ => true
  | _ => false

/-- The content of the most recent ledger write, scanning left to right
starting from `acc`. -/
def lastWrite (acc : Option PendingInfo) : List Ev → Option PendingInfo
  | [] => acc
  | .writeLedger pi :: rest => lastWrite (some pi) rest
  | _ :: rest => lastWrite acc rest

/-- Every disk copy in the trace happens at a point where the most recent
ledger write (starting from content `acc`) satisfies `q` for the copied
device. -/
def copiesCovered (q : PendingInfo → String → Bool) (acc : Option PendingInfo) :
    List Ev → Bool
  | [] => true
  | .writeLedger pi :: rest => copiesCovered q (some pi) rest
  | .copyDisk d :: rest =>
    (match acc with
     | some pi => q pi d
     | none => false) && copiesCovered q acc rest
  | _ :: rest => copiesCovered q acc rest

/-- The discoverability condition of C10 for a ledger content `pi` and a
device `d`: the ledger records, for `d`, exactly the canonical target
image filename of this run, and — when the job archives — the canonical
archive basename. -/
def C10Q (bdisks : List (String × DiskProps)) (compression : Option String)
    (dom : Domain) (td : String) (dt : Nat) (pi : PendingInfo) (d : String) : Bool :=
  (match pi.disks with
   | some pl =>
     (match alookup pl d, alookup bdisks d with
      | some pd, some p =>
        pd.target == some (diskBackupNameFormat dom.id dom.name dt d ++ "." ++ p.type)
      | _, _ => false)
   | none => false) &&
  (if pyTruthyStr compression then
    pi.tar == some (basename (canonicalArchivePath compression dom td dt))
   else true)

/-- One-step accumulator update of `lastWrite`. -/
def lwStep (acc : Option PendingInfo) (e : Ev) : Option PendingInfo :=
  match e with
  | .writeLedger pi => some pi
  | _ => acc

/-- One-step check of `copiesCovered`. -/
def ccCheck (q : PendingInfo → String → Bool) (acc : Option PendingInfo) (e : Ev) : Bool :=
  match e with
  | .copyDisk d =>
    (match acc with
     | some pi => q pi d
     | none => false)
  | _ => true

/-- The `DomBackup` attributes that a run never mutates. -/
def PresB (s s2 : S) : Prop :=
  s2.b.compression = s.b.compression ∧ s2.b.disks = s.b.disks ∧
  s2.b.target_dir = s.b.target_dir ∧ s2.b.running = s.b.running ∧
  s2.b.dom = s.b.dom ∧ s2.b.timeout = s.b.timeout ∧
  s2.b.callbacks_registrer = s.b.callbacks_registrer

/-- Events a loop segment never contains. -/
def notSpecial (e : Ev) : Prop :=
  e ≠ Ev.snap ∧ e ≠ Ev.writeDefinition ∧ e ≠ Ev.deleteLedger ∧
  e ≠ Ev.cleanAbortedRun ∧ (∀ p, e ≠ Ev.openArchive p) ∧ e ≠ Ev.postBackup ∧
  e ≠ Ev.releaseSnapshots ∧ (∀ p, e ≠ Ev.deleteFile p)

/-- The well-formedness bundle of a trace segment produced by the per-disk
loop: every trigger event is immediately followed by a ledger write
(whatever follows the segment), every disk copy is covered by the last
ledger write before it (whatever ledger content preceded the segment), and
the segment contains only per-disk events. -/
def SegOk (q : PendingInfo → String → Bool) (Δ : List Ev) : Prop :=
  (∀ nx, adjOkW Δ nx = true) ∧
  (∀ acc, copiesCovered q acc Δ = true) ∧
  (∀ e ∈ Δ, notSpecial e)

/-- The canonical target image filename for one disk of a run. -/
def targetImgName (dom : Domain) (dt : Nat) (disk : String) (prop : DiskProps) : String :=
  diskBackupNameFormat dom.id dom.name dt disk ++ "." ++ prop.type

/-- The pending dict after recording one disk's target filename. -/
def pendAfterTarget (pib : PendingInfo) (pl : List (String × PendingDisk))
    (disk : String) (timg : String) : PendingInfo :=
  { pib with disks := some (setDiskTarget pl disk timg) }

/-- The pending dict after additionally recording the archive basename. -/
def pendAfterTar (pi1 : PendingInfo) (tp : String) : PendingInfo :=
  { pi1 with tar := some (basename tp) }

/-- Classification of the event that ends a per-disk segment (`failed` or
`cleanForDisk`): a plain event with no scanner obligations of its own. -/
def plainEnd (e : Ev) : Prop :=
  trigger e = false ∧ (∀ d, e ≠ Ev.copyDisk d) ∧ notSpecial e

/-- Postcondition of the per-disk loop, relative to the state `s` the loop
started from and the disks `ds` it was asked to process: on success the
trace grew by one well-formed block per disk in mapping order; on a
mid-loop exception it grew by complete blocks then a partial block ending
with the raised error; either way the job's attributes are untouched, the
pending dict keeps its date and the ledger file stays present. -/
def LoopPost (q : PendingInfo → String → Bool) (dt : Nat)
    (ds : List (String × DiskProps)) (s : S)
    (r : Except (BErr × S) (Definition × S)) : Prop :=
  match r with
  | .ok (defn2, s2) =>
      ∃ Δ, s2.tr = s.tr ++ Δ ∧ SegOk q Δ ∧
        Δ.filter isDiskEv = ds.flatMap (fun dp => [Ev.copyDisk dp.1, Ev.cleanForDisk dp.1]) ∧
        PresB s s2 ∧ s2.b.ext_snapshot_helper.isSome = true ∧
        s2.b.pending_info.date = some dt ∧ s2.w.fs.ledger ≠ none ∧ defn2.date = some dt
  | .error (e, s2) =>
      ∃ Δ, s2.tr = s.tr ++ Δ ++ [Ev.failed e] ∧
        SegOk q (Δ ++ [Ev.failed e]) ∧
        PresB s s2 ∧ s2.b.pending_info.date = some dt ∧ s2.w.fs.ledger ≠ none

/-- The snapshot metadata produced by a successful coordinator start. -/
def mdOf (h0 : DomExtSnapshot) (w : World) : SnapshotMetadata :=
  { date := some w.now,
    disks := h0.disks.map (fun dp => (dp.1, { src := dp.2.src, snapshot := snapPathOf dp.2.src })) }

/-- Postcondition of `start_finish` (definition write, post-backup,
ledger deletion), relative to the state it started from. -/
def FinishPost (dt : Nat) (s : S) (r : Except (BErr × S) S) : Prop :=
  match r with
  | .ok s2 =>
      s2.tr = s.tr ++ [Ev.writeDefinition, Ev.releaseSnapshots, Ev.postBackup,
        Ev.deleteLedger] ∧
      s2.w.fs.ledger = none ∧ s2.b.target_dir = s.b.target_dir ∧
      s2.b.pending_info = {}
  | .error (e, s2) =>
      ∃ Δ, s2.tr = s.tr ++ Δ ++ [Ev.failed e] ∧
        (Δ = [] ∨ Δ = [Ev.writeDefinition, Ev.releaseSnapshots]) ∧
        s2.b.pending_info.date = some dt ∧ s2.w.fs.ledger ≠ none ∧
        s2.b.target_dir = s.b.target_dir

/-- Postcondition of the `try` body of `start`, relative to the state `s`
it was entered from: the grown trace segment satisfies the ledger-protocol
scanners, on success it ends with the ledger deletion and lists exactly
the per-disk events of the disk mapping in order, and on an exception the
segment ends with the raised error while the ledger file is still present
whenever the pending dict was ever stamped. -/
def TryPost (q : PendingInfo → String → Bool) (bdisks : List (String × DiskProps))
    (s : S) (r : Except (BErr × S) S) : Prop :=
  match r with
  | .ok s2 =>
    ∃ Δ, s2.tr = s.tr ++ Δ ∧
      noWriteBeforeSnap Δ = true ∧ (∀ nx, adjOkW Δ nx = true) ∧
      deleteOnlyAfter false Δ = true ∧
      Δ.getLast? = some Ev.deleteLedger ∧
      copiesCovered q none Δ = true ∧
      Δ.filter isDiskEv = bdisks.flatMap
        (fun dp => [Ev.copyDisk dp.1, Ev.cleanForDisk dp.1]) ∧
      s2.w.fs.ledger = none
  | .error (e, s2) =>
    ∃ Δ, s2.tr = s.tr ++ Δ ++ [Ev.failed e] ∧
      noWriteBeforeSnap (Δ ++ [Ev.failed e]) = true ∧
      (∀ nx, adjOkW (Δ ++ [Ev.failed e]) nx = true) ∧
      deleteOnlyAfter false (Δ ++ [Ev.failed e]) = true ∧
      copiesCovered q none (Δ ++ [Ev.failed e]) = true ∧
      s2.b.target_dir = s.b.target_dir ∧
      (s2.b.pending_info.date ≠ none → s2.w.fs.ledger ≠ none) ∧
      (s2.b.pending_info.date = none → s2.w.fs.ledger = s.w.fs.ledger)

/-- A concrete two-disk machine for run witnesses. -/
def domRun : Domain :=
  { id := 1, name := "vm1", xml := "<domain/>",
    attachedDisks := [("vda", ⟨"/i/vda.qcow2", "qcow2"⟩),
                      ("vdb", ⟨"/i/vdb.raw", "raw"⟩)] }

/-- A concrete ready-to-run job for that machine. -/
def bRun : DomBackup :=
  { dom := some domRun, target_dir := some ("/backup"),
    disks := domRun.attachedDisks, callbacks_registrer := true }

/-- A concrete world with an empty backup directory. -/
def wRun : World :=
  { fs := { files := [], ledger := none, definitionFile := none },
    openSnaps := [], now := 7 }

/-- The pending ledger of a crashed run: one snapshotted disk whose
target image had already been produced, no archive. -/
def piCrash : PendingInfo :=
  { date := some 5,
    disks := some [("vda", ⟨"/i/vda.qcow2", "/i/vda.qcow2.snap",
      some ("vm1-vda-img")⟩)],
    tar := none }

/-- A crashed job: pending ledger on disk, produced image present, no
live coordinator handle. -/
def sCrash : S :=
  ⟨{ dom := some domRun, target_dir := some ("/backup"),
     disks := domRun.attachedDisks, callbacks_registrer := true,
     pending_info := piCrash },
   { fs := { files := [pathJoin ("/backup") ("vm1-vda-img")],
             ledger := some piCrash, definitionFile := none },
     openSnaps := ["vda"], now := 9 }, []⟩

/-- An archiving job for the C6 witness. -/
def bTar : DomBackup :=
  { dom := some domRun, target_dir := some ("/backup"),
    disks := domRun.attachedDisks, compression := some ("xz"),
    callbacks_registrer := true }

/-- A world that already holds a file at this run's canonical archive
path. -/
def wCol : World :=
  { fs := { files := [canonicalArchivePath (some ("xz")) domRun ("/backup") 7],
            ledger := none, definitionFile := none },
    openSnaps := [], now := 7 }

/-! ## Association-list lemmas -/

theorem alookup_append {α : Type} (l1 l2 : List (String × α)) (k : String) :
    alookup (l1 ++ l2) k = ((alookup l1 k).orElse (fun _ => alookup l2 k)) := by
  induction l1 with
  | nil => simp [alookup]
  | cons p rest ih =>
    obtain ⟨k1, v1⟩ := p
    by_cases h : k1 == k
    · simp [alookup, h]
    · simp [alookup, h, ih]

theorem alookup_append_left {α : Type} (l1 l2 : List (String × α)) (k : String)
    (h : acontains l1 k = true) : alookup (l1 ++ l2) k = alookup l1 k := by
  rw [alookup_append]
  unfold acontains at h
  cases hx : alookup l1 k with
  | none => rw [hx] at h; simp at h
  | some v => simp [Option.orElse]

theorem alookup_append_right {α : Type} (l1 l2 : List (String × α)) (k : String)
    (h : acontains l1 k = false) : alookup (l1 ++ l2) k = alookup l2 k := by
  rw [alookup_append]
  unfold acontains at h
  cases hx : alookup l1 k with
  | none => simp [Option.orElse]
  | some v => rw [hx] at h; simp at h

/-! ## C5: `start` preconditions -/

/-- C5: a `DomBackup` whose running flag is set fails `start()` immediately
with the already-running error, and one whose machine handle or target
directory is unset fails immediately with the precondition error; in both
cases no backup step is performed (the state and trace are untouched). -/
theorem C5_start_preconditions (b : DomBackup) (w : World) (f : Faults) :
    (b.running = true →
      DomBackup.start f { b := b, w := w, tr := [] } =
        .error (.alreadyRunningError, { b := b, w := w, tr := [] })) ∧
    (b.running = false → (b.dom = none ∨ b.target_dir = none) →
      DomBackup.start f { b := b, w := w, tr := [] } =
        .error (.preconditionError, { b := b, w := w, tr := [] })) := by
  constructor
  · intro h
    simp [DomBackup.start, h]
  · intro h hd
    rcases hd with hd | hd
    · simp [DomBackup.start, h, hd]
    · simp [DomBackup.start, h, hd, pyTruthyStr]

/-- Witness for C5 at two concrete jobs: one already running, one with no
target machine. -/
theorem C5_witness :
    ((⟨none, some ("/b"), [], some ("tar"), none, none, none, true, {}, true⟩ : DomBackup).running = true ∧
      DomBackup.start {} { b := ⟨none, some ("/b"), [], some ("tar"), none, none, none, true, {}, true⟩, w := {}, tr := [] } =
        .error (.alreadyRunningError, { b := ⟨none, some ("/b"), [], some ("tar"), none, none, none, true, {}, true⟩, w := {}, tr := [] })) ∧
    ((⟨none, some ("/b"), [], some ("tar"), none, none, none, true, {}, false⟩ : DomBackup).running = false ∧
      DomBackup.start {} { b := ⟨none, some ("/b"), [], some ("tar"), none, none, none, true, {}, false⟩, w := {}, tr := [] } =
        .error (.preconditionError, { b := ⟨none, some ("/b"), [], some ("tar"), none, none, none, true, {}, false⟩, w := {}, tr := [] })) := by
  refine ⟨⟨rfl, ?_⟩, ⟨rfl, ?_⟩⟩
  · exact (C5_start_preconditions _ {} {}).1 rfl
  · exact (C5_start_preconditions _ {} {}).2 rfl (Or.inl rfl)

/-! ## `add_disks` and `merge_with` -/

/-- Characterization of `add_disks_fold`: on success, keys already in the
accumulator keep their entries, every requested key ends up present, and
any key that appears without having been in the accumulator was requested
and carries the entry of the re-resolved current disk set. -/
theorem add_disks_fold_spec (dom_all : List (String × DiskProps)) :
    ∀ (devs : List String) (acc r : List (String × DiskProps)),
    add_disks_fold dom_all devs acc = .ok r →
    ((∀ k, acontains acc k = true → alookup r k = alookup acc k) ∧
     (∀ k, k ∈ devs → acontains r k = true) ∧
     (∀ k, acontains acc k = false → acontains r k = true →
        k ∈ devs ∧ alookup r k = alookup dom_all k)) := by
  intro devs
  induction devs with
  | nil =>
    intro acc r h
    simp only [add_disks_fold, List.foldlM_nil] at h
    cases h
    refine ⟨fun k _ => rfl, by simp, fun k h1 h2 => by rw [h1] at h2; exact absurd h2 (by simp)⟩
  | cons dev rest ih =>
    intro acc r h
    simp only [add_disks_fold, List.foldlM_cons] at h
    by_cases hc : acontains acc dev = true
    · rw [if_pos hc] at h
      simp only [pure, Except.pure, bind, Except.bind] at h
      obtain ⟨h1, h2, h3⟩ := ih acc r h
      refine ⟨h1, ?_, ?_⟩
      · intro k hk
        rcases List.mem_cons.mp hk with hk | hk
        · rw [hk]
          unfold acontains
          rw [h1 dev hc]
          exact hc
        · exact h2 k hk
      · intro k hk1 hk2
        obtain ⟨hm, he⟩ := h3 k hk1 hk2
        exact ⟨List.mem_cons_of_mem _ hm, he⟩
    · rw [if_neg hc] at h
      rw [Bool.not_eq_true] at hc
      cases hl : alookup dom_all dev with
      | none =>
        rw [hl] at h
        simp [throw, throwThe, MonadExceptOf.throw, bind, Except.bind] at h
      | some v =>
        rw [hl] at h
        simp only [pure, Except.pure, bind, Except.bind] at h
        obtain ⟨h1, h2, h3⟩ := ih (acc ++ [(dev, v)]) r h
        have hacc' : ∀ k, acontains acc k = true → acontains (acc ++ [(dev, v)]) k = true := by
          intro k hk
          unfold acontains
          rw [alookup_append_left _ _ _ hk]
          exact hk
        have hdev : acontains (acc ++ [(dev, v)]) dev = true := by
          unfold acontains
          rw [alookup_append_right _ _ _ hc]
          simp [alookup]
        refine ⟨?_, ?_, ?_⟩
        · intro k hk
          rw [h1 k (hacc' k hk), alookup_append_left _ _ _ hk]
        · intro k hk
          rcases List.mem_cons.mp hk with hk | hk
          · rw [hk]
            unfold acontains
            rw [h1 dev hdev]
            exact hdev
          · exact h2 k hk
        · intro k hk1 hk2
          by_cases hk' : acontains (acc ++ [(dev, v)]) k = true
          · have hred : alookup (acc ++ [(dev, v)]) k = alookup [(dev, v)] k :=
              alookup_append_right _ _ _ hk1
            by_cases hkd : dev == k
            · have hkd2 : dev = k := eq_of_beq hkd
              refine ⟨by rw [← hkd2]; exact List.mem_cons_self _ _, ?_⟩
              rw [h1 k hk', hred, ← hkd2]
              simp [alookup, hl]
            · exfalso
              unfold acontains at hk'
              rw [hred] at hk'
              simp [alookup, hkd] at hk'
          · rw [Bool.not_eq_true] at hk'
            obtain ⟨hm, he⟩ := h3 k hk' hk2
            exact ⟨List.mem_cons_of_mem _ hm, he⟩

/-- `add_disks` with no requested devices replaces the whole mapping with
the machine's full current disk set. -/
theorem add_disks_nil (b : DomBackup) (dom : Domain) (hdom : b.dom = some dom) :
    b.add_disks [] = .ok { b with disks := dom.attachedDisks } := by
  simp [DomBackup.add_disks, hdom, add_disks_fold, List.foldlM_nil, pure, Except.pure]

/-- `add_disks` with a nonempty request list: tracked devices keep their
records, requested devices end up tracked, and every newly-appearing entry
is a requested one resolved against the current disk set. -/
theorem add_disks_spec (b : DomBackup) (dom : Domain) (devs : List String)
    (r : DomBackup) (hdom : b.dom = some dom) (hne : devs ≠ [])
    (h : b.add_disks devs = .ok r) :
    (∀ k, acontains b.disks k = true → alookup r.disks k = alookup b.disks k) ∧
    (∀ k, k ∈ devs → acontains r.disks k = true) ∧
    (∀ k, acontains b.disks k = false → acontains r.disks k = true →
      k ∈ devs ∧ alookup r.disks k = alookup dom.attachedDisks k) := by
  have hie : devs.isEmpty = false := by
    cases devs with
    | nil => exact absurd rfl hne
    | cons d ds => rfl
  rw [DomBackup.add_disks, hdom] at h
  simp only [hie, Bool.false_eq_true, if_false] at h
  cases hf : add_disks_fold dom.attachedDisks devs b.disks with
  | error e => rw [hf] at h; cases h
  | ok l =>
    rw [hf] at h
    cases h
    exact add_disks_fold_spec dom.attachedDisks devs b.disks l hf

/-- C7 counterexample: calling `add_disks()` with no requested devices on a
job that already tracks `vda` replaces `vda`'s recorded selection with the
re-resolved one — the already-tracked device does not keep its existing
record, contradicting the claim for the no-argument case. -/
theorem C7_counterexample :
    (DomBackup.add_disks bStale []).map (fun r => alookup r.disks ("vda")) = .ok (some diskNew) ∧
    alookup bStale.disks ("vda") = some diskOld ∧ ¬ diskNew = diskOld := by
  refine ⟨?_, rfl, by decide⟩
  rw [add_disks_nil bStale domNew rfl]
  rfl

/-- C7 (amended): `add_disks` re-resolves the machine's current disk set.
With a nonempty request list, only requested device names not already
tracked are added (with their entries taken from the re-resolved set) and
already-tracked names keep their recorded selection; with no requested
names, the whole mapping is replaced by the machine's full current disk
set (so stale records of tracked devices are overwritten). -/
theorem C7_add_disks (b : DomBackup) (dom : Domain) (devs : List String)
    (hdom : b.dom = some dom) :
    (devs = [] → b.add_disks devs = .ok { b with disks := dom.attachedDisks }) ∧
    (∀ r, devs ≠ [] → b.add_disks devs = .ok r →
      (∀ k, acontains b.disks k = true → alookup r.disks k = alookup b.disks k) ∧
      (∀ k, k ∈ devs → acontains r.disks k = true) ∧
      (∀ k, acontains b.disks k = false → acontains r.disks k = true →
        k ∈ devs ∧ alookup r.disks k = alookup dom.attachedDisks k)) := by
  constructor
  · intro hdevs
    subst hdevs
    exact add_disks_nil b dom hdom
  · intro r hne h
    exact add_disks_spec b dom devs r hdom hne h

/-- Witness for C7 (amended) on a concrete job: requesting `vdb` on a job
tracking a stale `vda` keeps `vda`'s record and adds `vdb` from the
current set. -/
theorem C7_witness :
    (["vdb"] ≠ ([] : List String)) ∧
    (DomBackup.add_disks
        { dom := some ⟨3, "vm7", "<domain/>", [("vda", diskNew), ("vdb", ⟨"/images/b.qcow2", "qcow2"⟩)]⟩,
          target_dir := none, disks := [("vda", diskOld)], compression := some ("tar"),
          compression_lvl := none, timeout := none, ext_snapshot_helper := none,
          callbacks_registrer := true, pending_info := {}, running := false } ["vdb"] =
      .ok { dom := some ⟨3, "vm7", "<domain/>", [("vda", diskNew), ("vdb", ⟨"/images/b.qcow2", "qcow2"⟩)]⟩,
            target_dir := none, disks := [("vda", diskOld), ("vdb", ⟨"/images/b.qcow2", "qcow2"⟩)],
            compression := some ("tar"), compression_lvl := none, timeout := none,
            ext_snapshot_helper := none, callbacks_registrer := true,
            pending_info := {}, running := false }) ∧
    (∀ k, acontains [("vda", diskOld)] k = true →
      alookup [("vda", diskOld), ("vdb", ⟨"/images/b.qcow2", "qcow2"⟩)] k = alookup [("vda", diskOld)] k) := by
  refine ⟨by decide, by rfl, ?_⟩
  have h := (C7_add_disks
    { dom := some ⟨3, "vm7", "<domain/>", [("vda", diskNew), ("vdb", ⟨"/images/b.qcow2", "qcow2"⟩)]⟩,
      target_dir := none, disks := [("vda", diskOld)], compression := some ("tar"),
      compression_lvl := none, timeout := none, ext_snapshot_helper := none,
      callbacks_registrer := true, pending_info := {}, running := false }
    ⟨3, "vm7", "<domain/>", [("vda", diskNew), ("vdb", ⟨"/images/b.qcow2", "qcow2"⟩)]⟩
    ["vdb"] rfl).2
    { dom := some ⟨3, "vm7", "<domain/>", [("vda", diskNew), ("vdb", ⟨"/images/b.qcow2", "qcow2"⟩)]⟩,
      target_dir := none, disks := [("vda", diskOld), ("vdb", ⟨"/images/b.qcow2", "qcow2"⟩)],
      compression := some ("tar"), compression_lvl := none, timeout := none,
      ext_snapshot_helper := none, callbacks_registrer := true,
      pending_info := {}, running := false }
    (by decide) (by rfl)
  exact h.1

/-- C8 counterexample: merging a job whose own timeout is `0` (set and
non-null) with one whose timeout is `5` yields timeout `5` — Python's
`self.timeout or dombackup.timeout` treats the set value `0` as unset, so
self's timeout does not take precedence as the claim states. -/
theorem C8_counterexample :
    (DomBackup.merge_with bZeroTimeout bFiveTimeout).map (fun r => r.timeout) = .ok (some 5) ∧
    bZeroTimeout.timeout = some 0 ∧ bZeroTimeout.timeout ≠ none := by
  refine ⟨by rfl, rfl, by decide⟩

/-- C8 (amended): `merge_with` absorbs the other job's device names via
`add_disks` (so, for a nonempty other, tracked devices keep their records
and every absorbed name becomes tracked), and sets the timeout to self's
when self's is truthy (non-null and nonzero) and to the other's otherwise. -/
theorem C8_merge_with (b o : DomBackup) (dom : Domain) (r : DomBackup)
    (hdom : b.dom = some dom) (h : DomBackup.merge_with b o = .ok r) :
    (pyTruthyInt b.timeout = true → r.timeout = b.timeout) ∧
    (pyTruthyInt b.timeout = false → r.timeout = o.timeout) ∧
    (o.disks ≠ [] →
      (∀ k, acontains b.disks k = true → alookup r.disks k = alookup b.disks k) ∧
      (∀ k, k ∈ o.disks.map Prod.fst → acontains r.disks k = true)) := by
  rw [DomBackup.merge_with] at h
  cases ha : b.add_disks (o.disks.map (fun p => p.1)) with
  | error e => rw [ha] at h; cases h
  | ok b1 =>
    rw [ha] at h
    cases h
    refine ⟨?_, ?_, ?_⟩
    · intro ht
      simp [pyOrTimeout, ht]
    · intro ht
      simp [pyOrTimeout, ht]
    · intro hne
      have hne2 : o.disks.map (fun p => p.1) ≠ [] := by
        intro hx
        exact hne (List.map_eq_nil_iff.mp hx)
      have hs := add_disks_spec b dom (o.disks.map (fun p => p.1)) b1 hdom hne2 ha
      exact ⟨hs.1, fun k hk => hs.2.1 k hk⟩

/-- Witness for C8 (amended) at concrete jobs: self's truthy timeout `7`
wins, and the other's device name is absorbed. -/
theorem C8_witness :
    (DomBackup.merge_with { bZeroTimeout with timeout := some 7 } bFiveTimeout =
      .ok { bZeroTimeout with timeout := some 7 }) ∧
    (pyTruthyInt (some 7) = true → ({ bZeroTimeout with timeout := some 7 } : DomBackup).timeout = some 7) ∧
    (∀ k, k ∈ bFiveTimeout.disks.map Prod.fst →
      acontains ({ bZeroTimeout with timeout := some 7 } : DomBackup).disks k = true) := by
  have h := C8_merge_with { bZeroTimeout with timeout := some 7 } bFiveTimeout domNew
    { bZeroTimeout with timeout := some 7 } rfl (by rfl)
  refine ⟨by rfl, fun _ => h.1 (by decide), ?_⟩
  intro k hk
  exact (h.2.2 (by decide)).2 k hk

/-! ## C9: disk resolution at construction -/

/-- C9 (amended): a `DomBackup` constructed without an explicit disk list
(neither `dev_disks` nor `disks`) resolves its disks mapping to all disks
currently attached to the machine; in particular the mapping is nonempty
whenever the machine has at least one attached disk (but empty for a
machine with no attached disks, see the counterexample). -/
theorem C9_resolve_all_disks (dom : Domain) (td : Option String)
    (comp : Option String) (lvl : Option Int) (conn : Bool) (tmo : Option Int)
    (hne : dom.attachedDisks ≠ []) :
    mkDomBackup (some dom) td [] comp lvl conn tmo [] none true =
      .ok { dom := some dom, target_dir := td, disks := dom.attachedDisks,
            compression := comp, compression_lvl := lvl, timeout := tmo,
            ext_snapshot_helper := none, callbacks_registrer := true,
            pending_info := {}, running := false } ∧
    (∀ b2, mkDomBackup (some dom) td [] comp lvl conn tmo [] none true = .ok b2 →
      b2.disks = dom.attachedDisks ∧ b2.disks ≠ []) := by
  have h1 : mkDomBackup (some dom) td [] comp lvl conn tmo [] none true =
      .ok { dom := some dom, target_dir := td, disks := dom.attachedDisks,
            compression := comp, compression_lvl := lvl, timeout := tmo,
            ext_snapshot_helper := none, callbacks_registrer := true,
            pending_info := {}, running := false } := by
    simp [mkDomBackup, getSelfDomainDisks]
  refine ⟨h1, ?_⟩
  intro b2 h2
  rw [h1] at h2
  cases h2
  exact ⟨rfl, hne⟩

/-- Witness for C9 (amended) at a machine with two attached disks. -/
theorem C9_witness :
    (([("vda", diskNew), ("vdb", diskOld)] : List (String × DiskProps)) ≠ []) ∧
    mkDomBackup (some ⟨9, "vm9", "", [("vda", diskNew), ("vdb", diskOld)]⟩) (some ("/b")) []
        (some ("tar")) none true none [] none true =
      .ok { dom := some ⟨9, "vm9", "", [("vda", diskNew), ("vdb", diskOld)]⟩,
            target_dir := some ("/b"), disks := [("vda", diskNew), ("vdb", diskOld)],
            compression := some ("tar"), compression_lvl := none, timeout := none,
            ext_snapshot_helper := none, callbacks_registrer := true,
            pending_info := {}, running := false } := by
  refine ⟨by decide, ?_⟩
  exact (C9_resolve_all_disks ⟨9, "vm9", "", [("vda", diskNew), ("vdb", diskOld)]⟩
    (some ("/b")) (some ("tar")) none true none (by decide)).1

/-- C9 counterexample: constructed without an explicit disk list against a
machine with no attached disks, the resolved mapping is empty — so "once
resolved the disks mapping is never empty" fails. -/
theorem C9_counterexample :
    (mkDomBackup (some domDiskless) (some ("/b")) [] (some ("tar")) none true none [] none true).map
      (fun b => b.disks) = .ok [] := by
  rfl

/-! ## Scanner composition lemmas -/

theorem adjOkW_cons (e : Ev) (rest : List Ev) (nx : Option Ev) :
    adjOkW (e :: rest) nx = (pairOkO e (headOr rest nx) && adjOkW rest nx) := rfl

theorem adjOkW_append (a b : List Ev) (nx : Option Ev) :
    adjOkW (a ++ b) nx = (adjOkW a (headOr b nx) && adjOkW b nx) := by
  induction a with
  | nil => simp [adjOkW]
  | cons e rest ih =>
    rw [List.cons_append, adjOkW_cons, ih, adjOkW_cons]
    cases rest with
    | nil =>
      cases b with
      | nil => simp [headOr, adjOkW]
      | cons e2 b2 => simp [headOr, Bool.and_assoc]
    | cons e2 rest2 => simp [headOr, Bool.and_assoc]

theorem noWriteBeforeSnap_append (a b : List Ev)
    (ha : ∀ e ∈ a, (∀ pi, e ≠ Ev.writeLedger pi) ∧ e ≠ Ev.snap) :
    noWriteBeforeSnap (a ++ b) = noWriteBeforeSnap b := by
  induction a with
  | nil => rfl
  | cons e rest ih =>
    have he := ha e (List.mem_cons_self _ _)
    have hr : ∀ e ∈ rest, (∀ pi, e ≠ Ev.writeLedger pi) ∧ e ≠ Ev.snap :=
      fun x hx => ha x (List.mem_cons_of_mem _ hx)
    cases e with
    | snap => exact absurd rfl he.2
    | writeLedger pi => exact absurd rfl (he.1 pi)
    | _ => simpa [noWriteBeforeSnap] using ih hr

theorem delAllowedAfter_true (l : List Ev) : delAllowedAfter true l = true := by
  simp [delAllowedAfter]

theorem deleteOnlyAfter_append (a b : List Ev) (allowed : Bool) :
    deleteOnlyAfter allowed (a ++ b) =
      (deleteOnlyAfter allowed a && deleteOnlyAfter (delAllowedAfter allowed a) b) := by
  induction a generalizing allowed with
  | nil => simp [deleteOnlyAfter, delAllowedAfter]
  | cons e rest ih =>
    rw [List.cons_append]
    cases e with
    | writeDefinition =>
      show deleteOnlyAfter true (rest ++ b) =
        (deleteOnlyAfter true rest &&
          deleteOnlyAfter (delAllowedAfter allowed (Ev.writeDefinition :: rest)) b)
      rw [ih true, delAllowedAfter_true]
      have h2 : delAllowedAfter allowed (Ev.writeDefinition :: rest) = true := by
        simp [delAllowedAfter]
      rw [h2]
    | cleanAbortedRun =>
      show deleteOnlyAfter true (rest ++ b) =
        (deleteOnlyAfter true rest &&
          deleteOnlyAfter (delAllowedAfter allowed (Ev.cleanAbortedRun :: rest)) b)
      rw [ih true, delAllowedAfter_true]
      have h2 : delAllowedAfter allowed (Ev.cleanAbortedRun :: rest) = true := by
        simp [delAllowedAfter]
      rw [h2]
    | deleteLedger =>
      show (allowed && deleteOnlyAfter allowed (rest ++ b)) =
        ((allowed && deleteOnlyAfter allowed rest) &&
          deleteOnlyAfter (delAllowedAfter allowed (Ev.deleteLedger :: rest)) b)
      rw [ih allowed]
      have h2 : delAllowedAfter allowed (Ev.deleteLedger :: rest) = delAllowedAfter allowed rest := by
        simp [delAllowedAfter]
      rw [h2, Bool.and_assoc]
    | snap =>
      show deleteOnlyAfter allowed (rest ++ b) =
        (deleteOnlyAfter allowed rest && deleteOnlyAfter (delAllowedAfter allowed (Ev.snap :: rest)) b)
      rw [ih allowed]
      have h2 : delAllowedAfter allowed (Ev.snap :: rest) = delAllowedAfter allowed rest := by
        simp [delAllowedAfter]
      rw [h2]
    | writeLedger pi =>
      show deleteOnlyAfter allowed (rest ++ b) =
        (deleteOnlyAfter allowed rest &&
          deleteOnlyAfter (delAllowedAfter allowed (Ev.writeLedger pi :: rest)) b)
      rw [ih allowed]
      have h2 : delAllowedAfter allowed (Ev.writeLedger pi :: rest) = delAllowedAfter allowed rest := by
        simp [delAllowedAfter]
      rw [h2]
    | openArchive p =>
      show deleteOnlyAfter allowed (rest ++ b) =
        (deleteOnlyAfter allowed rest &&
          deleteOnlyAfter (delAllowedAfter allowed (Ev.openArchive p :: rest)) b)
      rw [ih allowed]
      have h2 : delAllowedAfter allowed (Ev.openArchive p :: rest) = delAllowedAfter allowed rest := by
        simp [delAllowedAfter]
      rw [h2]
    | recordTarget d =>
      show deleteOnlyAfter allowed (rest ++ b) =
        (deleteOnlyAfter allowed rest &&
          deleteOnlyAfter (delAllowedAfter allowed (Ev.recordTarget d :: rest)) b)
      rw [ih allowed]
      have h2 : delAllowedAfter allowed (Ev.recordTarget d :: rest) = delAllowedAfter allowed rest := by
        simp [delAllowedAfter]
      rw [h2]
    | recordTar =>
      show deleteOnlyAfter allowed (rest ++ b) =
        (deleteOnlyAfter allowed rest &&
          deleteOnlyAfter (delAllowedAfter allowed (Ev.recordTar :: rest)) b)
      rw [ih allowed]
      have h2 : delAllowedAfter allowed (Ev.recordTar :: rest) = delAllowedAfter allowed rest := by
        simp [delAllowedAfter]
      rw [h2]
    | copyDisk d =>
      show deleteOnlyAfter allowed (rest ++ b) =
        (deleteOnlyAfter allowed rest &&
          deleteOnlyAfter (delAllowedAfter allowed (Ev.copyDisk d :: rest)) b)
      rw [ih allowed]
      have h2 : delAllowedAfter allowed (Ev.copyDisk d :: rest) = delAllowedAfter allowed rest := by
        simp [delAllowedAfter]
      rw [h2]
    | cleanForDisk d =>
      show deleteOnlyAfter allowed (rest ++ b) =
        (deleteOnlyAfter allowed rest &&
          deleteOnlyAfter (delAllowedAfter allowed (Ev.cleanForDisk d :: rest)) b)
      rw [ih allowed]
      have h2 : delAllowedAfter allowed (Ev.cleanForDisk d :: rest) = delAllowedAfter allowed rest := by
        simp [delAllowedAfter]
      rw [h2]
    | postBackup =>
      show deleteOnlyAfter allowed (rest ++ b) =
        (deleteOnlyAfter allowed rest &&
          deleteOnlyAfter (delAllowedAfter allowed (Ev.postBackup :: rest)) b)
      rw [ih allowed]
      have h2 : delAllowedAfter allowed (Ev.postBackup :: rest) = delAllowedAfter allowed rest := by
        simp [delAllowedAfter]
      rw [h2]
    | releaseSnapshots =>
      show deleteOnlyAfter allowed (rest ++ b) =
        (deleteOnlyAfter allowed rest &&
          deleteOnlyAfter (delAllowedAfter allowed (Ev.releaseSnapshots :: rest)) b)
      rw [ih allowed]
      have h2 : delAllowedAfter allowed (Ev.releaseSnapshots :: rest) = delAllowedAfter allowed rest := by
        simp [delAllowedAfter]
      rw [h2]
    | deleteFile p =>
      show deleteOnlyAfter allowed (rest ++ b) =
        (deleteOnlyAfter allowed rest &&
          deleteOnlyAfter (delAllowedAfter allowed (Ev.deleteFile p :: rest)) b)
      rw [ih allowed]
      have h2 : delAllowedAfter allowed (Ev.deleteFile p :: rest) = delAllowedAfter allowed rest := by
        simp [delAllowedAfter]
      rw [h2]
    | failed e2 =>
      show deleteOnlyAfter allowed (rest ++ b) =
        (deleteOnlyAfter allowed rest &&
          deleteOnlyAfter (delAllowedAfter allowed (Ev.failed e2 :: rest)) b)
      rw [ih allowed]
      have h2 : delAllowedAfter allowed (Ev.failed e2 :: rest) = delAllowedAfter allowed rest := by
        simp [delAllowedAfter]
      rw [h2]

theorem lastWrite_cons (acc : Option PendingInfo) (e : Ev) (l : List Ev) :
    lastWrite acc (e :: l) = lastWrite (lwStep acc e) l := by
  cases e <;> rfl

theorem copiesCovered_cons (q : PendingInfo → String → Bool) (acc : Option PendingInfo)
    (e : Ev) (l : List Ev) :
    copiesCovered q acc (e :: l) = (ccCheck q acc e && copiesCovered q (lwStep acc e) l) := by
  cases e <;> simp [copiesCovered, ccCheck, lwStep]

theorem lastWrite_append (a b : List Ev) (acc : Option PendingInfo) :
    lastWrite acc (a ++ b) = lastWrite (lastWrite acc a) b := by
  induction a generalizing acc with
  | nil => rfl
  | cons e rest ih =>
    rw [List.cons_append, lastWrite_cons, ih, lastWrite_cons]

theorem copiesCovered_append (q : PendingInfo → String → Bool) (a b : List Ev)
    (acc : Option PendingInfo) :
    copiesCovered q acc (a ++ b) =
      (copiesCovered q acc a && copiesCovered q (lastWrite acc a) b) := by
  induction a generalizing acc with
  | nil => rfl
  | cons e rest ih =>
    rw [List.cons_append, copiesCovered_cons, ih, copiesCovered_cons, lastWrite_cons,
      Bool.and_assoc]

theorem pairOkO_of_not_trigger (e : Ev) (o : Option Ev) (h : trigger e = false) :
    pairOkO e o = true := by
  cases o with
  | none => simp [pairOkO, h]
  | some e2 => cases e <;> first | rfl | exact absurd h (by simp [trigger])

theorem adjOkW_of_no_trigger (l : List Ev) (nx : Option Ev)
    (h : ∀ e ∈ l, trigger e = false) : adjOkW l nx = true := by
  induction l generalizing nx with
  | nil => rfl
  | cons e rest ih =>
    have he := h e (List.mem_cons_self _ _)
    have hr := fun x hx => h x (List.mem_cons_of_mem _ hx)
    rw [adjOkW_cons, pairOkO_of_not_trigger e _ he, ih nx hr]
    rfl

theorem copiesCovered_of_no_copy (q : PendingInfo → String → Bool) (acc : Option PendingInfo)
    (l : List Ev) (h : ∀ e ∈ l, ∀ d, e ≠ Ev.copyDisk d) : copiesCovered q acc l = true := by
  induction l generalizing acc with
  | nil => rfl
  | cons e rest ih =>
    have he := h e (List.mem_cons_self _ _)
    have hr := fun x hx => h x (List.mem_cons_of_mem _ hx)
    rw [copiesCovered_cons, ih _ hr]
    have : ccCheck q acc e = true := by
      cases e <;> first | rfl | exact absurd rfl (he _)
    rw [this]
    rfl

theorem noWriteBeforeSnap_of_none (l : List Ev)
    (h : ∀ e ∈ l, (∀ pi, e ≠ Ev.writeLedger pi) ∧ e ≠ Ev.snap) :
    noWriteBeforeSnap l = true := by
  have := noWriteBeforeSnap_append l [] h
  rw [List.append_nil] at this
  rw [this]
  rfl

theorem deleteOnlyAfter_true (l : List Ev) : deleteOnlyAfter true l = true := by
  induction l with
  | nil => rfl
  | cons e rest ih => cases e <;> simpa [deleteOnlyAfter] using ih

/-! ## Per-run infrastructure lemmas -/

theorem alookup_setDiskTarget (pl : List (String × PendingDisk)) (d t k : String) :
    alookup (setDiskTarget pl d t) k =
      if d == k then (alookup pl k).map (fun pd => { pd with target := some t })
      else alookup pl k := by
  induction pl with
  | nil => by_cases hd : d = k <;> simp [setDiskTarget, alookup, hd]
  | cons p rest ih =>
    obtain ⟨k1, pd⟩ := p
    by_cases h1 : k1 = d
    · subst h1
      by_cases h2 : k1 = k
      · subst h2
        simp [setDiskTarget, alookup]
      · simp [setDiskTarget, alookup, h2, ih, fun h => h2 (eq_of_beq h)]
    · by_cases h2 : k1 = k
      · subst h2
        have hdk : ¬ d = k1 := fun h => h1 h.symm
        simp [setDiskTarget, alookup, h1, hdk]
      · simp [setDiskTarget, alookup, h1, h2, ih]

theorem acontains_setDiskTarget (pl : List (String × PendingDisk)) (d t k : String) :
    acontains (setDiskTarget pl d t) k = acontains pl k := by
  unfold acontains
  rw [alookup_setDiskTarget]
  by_cases hd : d = k
  · subst hd
    cases alookup pl d <;> simp
  · rw [if_neg (by simpa using hd)]

theorem PresB_refl (s : S) : PresB s s := ⟨rfl, rfl, rfl, rfl, rfl, rfl, rfl⟩

theorem PresB_trans {s1 s2 s3 : S} (h1 : PresB s1 s2) (h2 : PresB s2 s3) : PresB s1 s3 := by
  obtain ⟨a1, a2, a3, a4, a5, a6, a7⟩ := h1
  obtain ⟨b1, b2, b3, b4, b5, b6, b7⟩ := h2
  exact ⟨b1.trans a1, b2.trans a2, b3.trans a3, b4.trans a4, b5.trans a5,
    b6.trans a6, b7.trans a7⟩

theorem SegOk_nil (q : PendingInfo → String → Bool) : SegOk q [] :=
  ⟨fun _ => rfl, fun _ => rfl, by simp⟩

theorem SegOk_append {q : PendingInfo → String → Bool} {a b : List Ev}
    (ha : SegOk q a) (hb : SegOk q b) : SegOk q (a ++ b) := by
  obtain ⟨a1, a2, a3⟩ := ha
  obtain ⟨b1, b2, b3⟩ := hb
  refine ⟨?_, ?_, ?_⟩
  · intro nx
    rw [adjOkW_append, a1, b1]
    rfl
  · intro acc
    rw [copiesCovered_append, a2, b2]
    rfl
  · intro e he
    rcases List.mem_append.mp he with h | h
    · exact a3 e h
    · exact b3 e h

theorem backup_disk_dir_spec (f : Faults) (dom : Domain) (disk : String) (prop : DiskProps)
    (p : String) (defn : Definition) (s : S) (dt : Nat) (pl : List (String × PendingDisk))
    (hdate : defn.date = some dt) (hpleq : s.b.pending_info.disks = some pl)
    (hin : acontains pl disk = true) (hcmp : pyTruthyStr s.b.compression = false) :
    (f.copy disk = true →
      DomBackup.backup_disk f dom disk prop (BackupTarget.dir p) defn s =
        .error (.copyFailed disk,
          { s with
            b.pending_info := pendAfterTarget s.b.pending_info pl disk (targetImgName dom dt disk prop),
            w.fs.ledger := some (pendAfterTarget s.b.pending_info pl disk (targetImgName dom dt disk prop)),
            tr := s.tr ++ [Ev.recordTarget disk,
              Ev.writeLedger (pendAfterTarget s.b.pending_info pl disk (targetImgName dom dt disk prop)),
              Ev.failed (.copyFailed disk)] })) ∧
    (f.copy disk = false →
      DomBackup.backup_disk f dom disk prop (BackupTarget.dir p) defn s =
        .ok ({ defn with disks := aset defn.disks disk (targetImgName dom dt disk prop) },
          { s with
            b.pending_info := pendAfterTarget s.b.pending_info pl disk (targetImgName dom dt disk prop),
            w.fs.ledger := some (pendAfterTarget s.b.pending_info pl disk (targetImgName dom dt disk prop)),
            w.fs.files := addFile s.w.fs.files (pathJoin p (targetImgName dom dt disk prop)),
            tr := s.tr ++ [Ev.recordTarget disk,
              Ev.writeLedger (pendAfterTarget s.b.pending_info pl disk (targetImgName dom dt disk prop)),
              Ev.copyDisk disk] })) := by
  constructor
  · intro hcf
    simp [DomBackup.backup_disk, hdate, hpleq, hin, DomBackup.dump_pending_info,
      DomBackup.backup_img, hcmp, DomBackup.copy_img_to_file, hcf, raiseAt,
      targetImgName, pendAfterTarget]
  · intro hcf
    simp [DomBackup.backup_disk, hdate, hpleq, hin, DomBackup.dump_pending_info,
      DomBackup.backup_img, hcmp, DomBackup.copy_img_to_file, hcf,
      targetImgName, pendAfterTarget]

theorem backup_disk_tar_spec (f : Faults) (dom : Domain) (disk : String) (prop : DiskProps)
    (tp : String) (defn : Definition) (s : S) (dt : Nat) (pl : List (String × PendingDisk))
    (hdate : defn.date = some dt) (hpleq : s.b.pending_info.disks = some pl)
    (hin : acontains pl disk = true) (hcmp : pyTruthyStr s.b.compression = true) :
    (f.copy disk = true →
      DomBackup.backup_disk f dom disk prop (BackupTarget.tarFile tp) defn s =
        .error (.copyFailed disk,
          { s with
            b.pending_info := pendAfterTar (pendAfterTarget s.b.pending_info pl disk (targetImgName dom dt disk prop)) tp,
            w.fs.ledger := some (pendAfterTar (pendAfterTarget s.b.pending_info pl disk (targetImgName dom dt disk prop)) tp),
            tr := s.tr ++ [Ev.recordTarget disk,
              Ev.writeLedger (pendAfterTarget s.b.pending_info pl disk (targetImgName dom dt disk prop)),
              Ev.recordTar,
              Ev.writeLedger (pendAfterTar (pendAfterTarget s.b.pending_info pl disk (targetImgName dom dt disk prop)) tp),
              Ev.failed (.copyFailed disk)] })) ∧
    (f.copy disk = false →
      DomBackup.backup_disk f dom disk prop (BackupTarget.tarFile tp) defn s =
        .ok ((if pyTruthyStr defn.tar then
                { defn with disks := aset defn.disks disk (targetImgName dom dt disk prop) }
              else { defn with disks := aset defn.disks disk (targetImgName dom dt disk prop), tar := some (basename tp) }),
          { s with
            b.pending_info := pendAfterTar (pendAfterTarget s.b.pending_info pl disk (targetImgName dom dt disk prop)) tp,
            w.fs.ledger := some (pendAfterTar (pendAfterTarget s.b.pending_info pl disk (targetImgName dom dt disk prop)) tp),
            tr := s.tr ++ [Ev.recordTarget disk,
              Ev.writeLedger (pendAfterTarget s.b.pending_info pl disk (targetImgName dom dt disk prop)),
              Ev.recordTar,
              Ev.writeLedger (pendAfterTar (pendAfterTarget s.b.pending_info pl disk (targetImgName dom dt disk prop)) tp),
              Ev.copyDisk disk] })) := by
  constructor
  · intro hcf
    simp [DomBackup.backup_disk, hdate, hpleq, hin, DomBackup.dump_pending_info,
      DomBackup.backup_img, hcmp, DomBackup.add_img_to_tarfile, hcf, raiseAt,
      targetImgName, pendAfterTarget, pendAfterTar]
  · intro hcf
    by_cases hdt : pyTruthyStr defn.tar = true
    · simp [DomBackup.backup_disk, hdate, hpleq, hin, DomBackup.dump_pending_info,
        DomBackup.backup_img, hcmp, DomBackup.add_img_to_tarfile, hcf, hdt,
        targetImgName, pendAfterTarget, pendAfterTar]
    · rw [Bool.not_eq_true] at hdt
      simp [DomBackup.backup_disk, hdate, hpleq, hin, DomBackup.dump_pending_info,
        DomBackup.backup_img, hcmp, DomBackup.add_img_to_tarfile, hcf, hdt,
        targetImgName, pendAfterTarget, pendAfterTar]

theorem backup_disk_mismatch_spec (f : Faults) (dom : Domain) (disk : String)
    (prop : DiskProps) (bt : BackupTarget) (defn : Definition) (s : S) (dt : Nat)
    (pl : List (String × PendingDisk))
    (hdate : defn.date = some dt) (hpleq : s.b.pending_info.disks = some pl)
    (hin : acontains pl disk = true)
    (hmis : (pyTruthyStr s.b.compression = true ∧ (∃ p, bt = BackupTarget.dir p)) ∨
            (pyTruthyStr s.b.compression = false ∧ (∃ tp, bt = BackupTarget.tarFile tp))) :
    DomBackup.backup_disk f dom disk prop bt defn s =
      .error (.typeError,
        { s with
          b.pending_info := pendAfterTarget s.b.pending_info pl disk (targetImgName dom dt disk prop),
          w.fs.ledger := some (pendAfterTarget s.b.pending_info pl disk (targetImgName dom dt disk prop)),
          tr := s.tr ++ [Ev.recordTarget disk,
            Ev.writeLedger (pendAfterTarget s.b.pending_info pl disk (targetImgName dom dt disk prop)),
            Ev.failed .typeError] }) := by
  rcases hmis with ⟨hcmp, p, hbt⟩ | ⟨hcmp, tp, hbt⟩ <;> subst hbt <;>
    simp [DomBackup.backup_disk, hdate, hpleq, hin, DomBackup.dump_pending_info,
      DomBackup.backup_img, hcmp, raiseAt, targetImgName, pendAfterTarget]

theorem clean_for_disk_step_spec (f : Faults) (disk : String) (s : S)
    (h : DomExtSnapshot) (hh : s.b.ext_snapshot_helper = some h) :
    (f.pivot disk = true →
      DomBackup.clean_for_disk_step f disk s =
        .error (.pivotFailed disk, { s with tr := s.tr ++ [Ev.failed (.pivotFailed disk)] })) ∧
    (f.pivot disk = false →
      DomBackup.clean_for_disk_step f disk s =
        .ok { s with
          b.ext_snapshot_helper := some (domExtSnapshotCleanForDisk h s.w disk).1,
          w := (domExtSnapshotCleanForDisk h s.w disk).2,
          tr := s.tr ++ [Ev.cleanForDisk disk] }) := by
  constructor
  · intro hp
    simp [DomBackup.clean_for_disk_step, hh, hp, raiseAt]
  · intro hp
    simp [DomBackup.clean_for_disk_step, hh, hp]

theorem C10Q_pendAfterTarget (bdisks : List (String × DiskProps)) (cmp : Option String)
    (dom : Domain) (td : String) (dt : Nat) (pib : PendingInfo)
    (pl : List (String × PendingDisk)) (disk : String) (prop : DiskProps)
    (hlk : alookup bdisks disk = some prop) (hcmp : pyTruthyStr cmp = false)
    (hin : acontains pl disk = true) :
    C10Q bdisks cmp dom td dt
      (pendAfterTarget pib pl disk (targetImgName dom dt disk prop)) disk = true := by
  unfold C10Q pendAfterTarget targetImgName
  unfold acontains at hin
  cases hpd : alookup pl disk with
  | none => rw [hpd] at hin; simp at hin
  | some pd =>
    simp only [alookup_setDiskTarget, beq_self_eq_true, if_true, hpd, Option.map_some,
      hlk, hcmp, if_false]
    simp

theorem C10Q_pendAfterTar (bdisks : List (String × DiskProps)) (cmp : Option String)
    (dom : Domain) (td : String) (dt : Nat) (pib : PendingInfo)
    (pl : List (String × PendingDisk)) (disk : String) (prop : DiskProps)
    (hlk : alookup bdisks disk = some prop) (hcmp : pyTruthyStr cmp = true)
    (hin : acontains pl disk = true) :
    C10Q bdisks cmp dom td dt
      (pendAfterTar (pendAfterTarget pib pl disk (targetImgName dom dt disk prop))
        (canonicalArchivePath cmp dom td dt)) disk = true := by
  unfold C10Q pendAfterTar pendAfterTarget targetImgName
  unfold acontains at hin
  cases hpd : alookup pl disk with
  | none => rw [hpd] at hin; simp at hin
  | some pd =>
    simp only [alookup_setDiskTarget, beq_self_eq_true, if_true, hpd, Option.map_some,
      hlk, hcmp, if_true]
    simp

theorem plainEnd_failed (e : BErr) : plainEnd (Ev.failed e) := by
  refine ⟨rfl, by simp, ?_⟩
  unfold notSpecial
  refine ⟨by simp, by simp, by simp, by simp, by simp, by simp, by simp, by simp⟩

theorem plainEnd_cleanForDisk (d : String) : plainEnd (Ev.cleanForDisk d) := by
  refine ⟨rfl, by simp, ?_⟩
  unfold notSpecial
  refine ⟨by simp, by simp, by simp, by simp, by simp, by simp, by simp, by simp⟩

theorem notSpecial_recordTarget (d : String) : notSpecial (Ev.recordTarget d) := by
  unfold notSpecial
  refine ⟨by simp, by simp, by simp, by simp, by simp, by simp, by simp, by simp⟩

theorem notSpecial_recordTar : notSpecial Ev.recordTar := by
  unfold notSpecial
  refine ⟨by simp, by simp, by simp, by simp, by simp, by simp, by simp, by simp⟩

theorem notSpecial_writeLedger (pi : PendingInfo) : notSpecial (Ev.writeLedger pi) := by
  unfold notSpecial
  refine ⟨by simp, by simp, by simp, by simp, by simp, by simp, by simp, by simp⟩

theorem notSpecial_copyDisk (d : String) : notSpecial (Ev.copyDisk d) := by
  unfold notSpecial
  refine ⟨by simp, by simp, by simp, by simp, by simp, by simp, by simp, by simp⟩

theorem SegOk_seg_short (q : PendingInfo → String → Bool) (d : String) (pi1 : PendingInfo)
    (e3 : Ev) (he : plainEnd e3) :
    SegOk q [Ev.recordTarget d, Ev.writeLedger pi1, e3] := by
  obtain ⟨ht, hc, hns⟩ := he
  refine ⟨?_, ?_, ?_⟩
  · intro nx
    cases nx <;> cases e3 <;> simp_all [adjOkW, headOr, pairOkO, pairOk, trigger]
  · intro acc
    simp [copiesCovered_cons, ccCheck, lwStep]
    cases e3 <;> simp_all [ccCheck, copiesCovered]
  · intro e hm
    simp only [List.mem_cons, List.not_mem_nil, or_false] at hm
    rcases hm with h | h | h
    · exact h ▸ notSpecial_recordTarget d
    · exact h ▸ notSpecial_writeLedger pi1
    · exact h ▸ hns

theorem SegOk_seg_shortT (q : PendingInfo → String → Bool) (d : String)
    (pi1 pi2 : PendingInfo) (e5 : Ev) (he : plainEnd e5) :
    SegOk q [Ev.recordTarget d, Ev.writeLedger pi1, Ev.recordTar, Ev.writeLedger pi2, e5] := by
  obtain ⟨ht, hc, hns⟩ := he
  refine ⟨?_, ?_, ?_⟩
  · intro nx
    cases nx <;> cases e5 <;> simp_all [adjOkW, headOr, pairOkO, pairOk, trigger]
  · intro acc
    simp [copiesCovered_cons, ccCheck, lwStep]
    cases e5 <;> simp_all [ccCheck, copiesCovered]
  · intro e hm
    simp only [List.mem_cons, List.not_mem_nil, or_false] at hm
    rcases hm with h | h | h | h | h
    · exact h ▸ notSpecial_recordTarget d
    · exact h ▸ notSpecial_writeLedger pi1
    · exact h ▸ notSpecial_recordTar
    · exact h ▸ notSpecial_writeLedger pi2
    · exact h ▸ hns

theorem SegOk_seg_blockP (q : PendingInfo → String → Bool) (d : String) (pi1 : PendingInfo)
    (e4 : Ev) (hq : q pi1 d = true) (he : plainEnd e4) :
    SegOk q [Ev.recordTarget d, Ev.writeLedger pi1, Ev.copyDisk d, e4] := by
  obtain ⟨ht, hc, hns⟩ := he
  refine ⟨?_, ?_, ?_⟩
  · intro nx
    cases nx <;> cases e4 <;> simp_all [adjOkW, headOr, pairOkO, pairOk, trigger]
  · intro acc
    simp [copiesCovered_cons, ccCheck, lwStep, hq]
    cases e4 <;> simp_all [ccCheck, copiesCovered]
  · intro e hm
    simp only [List.mem_cons, List.not_mem_nil, or_false] at hm
    rcases hm with h | h | h | h
    · exact h ▸ notSpecial_recordTarget d
    · exact h ▸ notSpecial_writeLedger pi1
    · exact h ▸ notSpecial_copyDisk d
    · exact h ▸ hns

theorem SegOk_seg_blockT (q : PendingInfo → String → Bool) (d : String)
    (pi1 pi2 : PendingInfo) (e6 : Ev) (hq : q pi2 d = true) (he : plainEnd e6) :
    SegOk q [Ev.recordTarget d, Ev.writeLedger pi1, Ev.recordTar, Ev.writeLedger pi2,
      Ev.copyDisk d, e6] := by
  obtain ⟨ht, hc, hns⟩ := he
  refine ⟨?_, ?_, ?_⟩
  · intro nx
    cases nx <;> cases e6 <;> simp_all [adjOkW, headOr, pairOkO, pairOk, trigger]
  · intro acc
    simp [copiesCovered_cons, ccCheck, lwStep, hq]
    cases e6 <;> simp_all [ccCheck, copiesCovered]
  · intro e hm
    simp only [List.mem_cons, List.not_mem_nil, or_false] at hm
    rcases hm with h | h | h | h | h | h
    · exact h ▸ notSpecial_recordTarget d
    · exact h ▸ notSpecial_writeLedger pi1
    · exact h ▸ notSpecial_recordTar
    · exact h ▸ notSpecial_writeLedger pi2
    · exact h ▸ notSpecial_copyDisk d
    · exact h ▸ hns

theorem backup_loop_cons_dir (f : Faults) (dom : Domain) (p : String)
    (rest : List (String × DiskProps)) (defn : Definition) (s : S) (dt : Nat)
    (pl : List (String × PendingDisk)) (disk : String) (prop : DiskProps)
    (h : DomExtSnapshot)
    (hdate : defn.date = some dt) (hpleq : s.b.pending_info.disks = some pl)
    (hin : acontains pl disk = true) (hcmp : pyTruthyStr s.b.compression = false)
    (hh : s.b.ext_snapshot_helper = some h) :
    (f.copy disk = true →
      DomBackup.backup_loop f dom (BackupTarget.dir p) ((disk, prop) :: rest) defn s =
        .error (.copyFailed disk,
          { s with
            b.pending_info := pendAfterTarget s.b.pending_info pl disk (targetImgName dom dt disk prop),
            w.fs.ledger := some (pendAfterTarget s.b.pending_info pl disk (targetImgName dom dt disk prop)),
            tr := s.tr ++ [Ev.recordTarget disk,
              Ev.writeLedger (pendAfterTarget s.b.pending_info pl disk (targetImgName dom dt disk prop)),
              Ev.failed (.copyFailed disk)] })) ∧
    (f.copy disk = false → f.pivot disk = true →
      DomBackup.backup_loop f dom (BackupTarget.dir p) ((disk, prop) :: rest) defn s =
        .error (.pivotFailed disk,
          { s with
            b.pending_info := pendAfterTarget s.b.pending_info pl disk (targetImgName dom dt disk prop),
            w.fs.ledger := some (pendAfterTarget s.b.pending_info pl disk (targetImgName dom dt disk prop)),
            w.fs.files := addFile s.w.fs.files (pathJoin p (targetImgName dom dt disk prop)),
            tr := s.tr ++ [Ev.recordTarget disk,
              Ev.writeLedger (pendAfterTarget s.b.pending_info pl disk (targetImgName dom dt disk prop)),
              Ev.copyDisk disk, Ev.failed (.pivotFailed disk)] })) ∧
    (f.copy disk = false → f.pivot disk = false →
      DomBackup.backup_loop f dom (BackupTarget.dir p) ((disk, prop) :: rest) defn s =
        DomBackup.backup_loop f dom (BackupTarget.dir p) rest
          { defn with disks := aset defn.disks disk (targetImgName dom dt disk prop) }
          { s with
            b.pending_info := pendAfterTarget s.b.pending_info pl disk (targetImgName dom dt disk prop),
            b.ext_snapshot_helper := some (domExtSnapshotCleanForDisk h
              { s.w with
                fs.ledger := some (pendAfterTarget s.b.pending_info pl disk (targetImgName dom dt disk prop)),
                fs.files := addFile s.w.fs.files (pathJoin p (targetImgName dom dt disk prop)) } disk).1,
            w := (domExtSnapshotCleanForDisk h
              { s.w with
                fs.ledger := some (pendAfterTarget s.b.pending_info pl disk (targetImgName dom dt disk prop)),
                fs.files := addFile s.w.fs.files (pathJoin p (targetImgName dom dt disk prop)) } disk).2,
            tr := s.tr ++ [Ev.recordTarget disk,
              Ev.writeLedger (pendAfterTarget s.b.pending_info pl disk (targetImgName dom dt disk prop)),
              Ev.copyDisk disk, Ev.cleanForDisk disk] }) := by
  have hspec := backup_disk_dir_spec f dom disk prop p defn s dt pl hdate hpleq hin hcmp
  refine ⟨?_, ?_, ?_⟩
  · intro hcf
    simp only [DomBackup.backup_loop, hspec.1 hcf]
  · intro hcf hpv
    simp only [DomBackup.backup_loop, hspec.2 hcf, DomBackup.clean_for_disk_step]
    simp only [pendAfterTarget, hh, hpv, raiseAt]
    simp [List.append_assoc]
  · intro hcf hpv
    simp only [DomBackup.backup_loop, hspec.2 hcf, DomBackup.clean_for_disk_step]
    simp only [pendAfterTarget, hh, hpv]
    simp [List.append_assoc]

theorem backup_loop_cons_tar (f : Faults) (dom : Domain) (tp : String)
    (rest : List (String × DiskProps)) (defn : Definition) (s : S) (dt : Nat)
    (pl : List (String × PendingDisk)) (disk : String) (prop : DiskProps)
    (h : DomExtSnapshot)
    (hdate : defn.date = some dt) (hpleq : s.b.pending_info.disks = some pl)
    (hin : acontains pl disk = true) (hcmp : pyTruthyStr s.b.compression = true)
    (hh : s.b.ext_snapshot_helper = some h) :
    (f.copy disk = true →
      DomBackup.backup_loop f dom (BackupTarget.tarFile tp) ((disk, prop) :: rest) defn s =
        .error (.copyFailed disk,
          { s with
            b.pending_info := pendAfterTar (pendAfterTarget s.b.pending_info pl disk (targetImgName dom dt disk prop)) tp,
            w.fs.ledger := some (pendAfterTar (pendAfterTarget s.b.pending_info pl disk (targetImgName dom dt disk prop)) tp),
            tr := s.tr ++ [Ev.recordTarget disk,
              Ev.writeLedger (pendAfterTarget s.b.pending_info pl disk (targetImgName dom dt disk prop)),
              Ev.recordTar,
              Ev.writeLedger (pendAfterTar (pendAfterTarget s.b.pending_info pl disk (targetImgName dom dt disk prop)) tp),
              Ev.failed (.copyFailed disk)] })) ∧
    (f.copy disk = false → f.pivot disk = true →
      DomBackup.backup_loop f dom (BackupTarget.tarFile tp) ((disk, prop) :: rest) defn s =
        .error (.pivotFailed disk,
          { s with
            b.pending_info := pendAfterTar (pendAfterTarget s.b.pending_info pl disk (targetImgName dom dt disk prop)) tp,
            w.fs.ledger := some (pendAfterTar (pendAfterTarget s.b.pending_info pl disk (targetImgName dom dt disk prop)) tp),
            tr := s.tr ++ [Ev.recordTarget disk,
              Ev.writeLedger (pendAfterTarget s.b.pending_info pl disk (targetImgName dom dt disk prop)),
              Ev.recordTar,
              Ev.writeLedger (pendAfterTar (pendAfterTarget s.b.pending_info pl disk (targetImgName dom dt disk prop)) tp),
              Ev.copyDisk disk, Ev.failed (.pivotFailed disk)] })) ∧
    (f.copy disk = false → f.pivot disk = false →
      DomBackup.backup_loop f dom (BackupTarget.tarFile tp) ((disk, prop) :: rest) defn s =
        DomBackup.backup_loop f dom (BackupTarget.tarFile tp) rest
          (if pyTruthyStr defn.tar then
            { defn with disks := aset defn.disks disk (targetImgName dom dt disk prop) }
           else { defn with disks := aset defn.disks disk (targetImgName dom dt disk prop), tar := some (basename tp) })
          { s with
            b.pending_info := pendAfterTar (pendAfterTarget s.b.pending_info pl disk (targetImgName dom dt disk prop)) tp,
            b.ext_snapshot_helper := some (domExtSnapshotCleanForDisk h
              { s.w with
                fs.ledger := some (pendAfterTar (pendAfterTarget s.b.pending_info pl disk (targetImgName dom dt disk prop)) tp) } disk).1,
            w := (domExtSnapshotCleanForDisk h
              { s.w with
                fs.ledger := some (pendAfterTar (pendAfterTarget s.b.pending_info pl disk (targetImgName dom dt disk prop)) tp) } disk).2,
            tr := s.tr ++ [Ev.recordTarget disk,
              Ev.writeLedger (pendAfterTarget s.b.pending_info pl disk (targetImgName dom dt disk prop)),
              Ev.recordTar,
              Ev.writeLedger (pendAfterTar (pendAfterTarget s.b.pending_info pl disk (targetImgName dom dt disk prop)) tp),
              Ev.copyDisk disk, Ev.cleanForDisk disk] }) := by
  have hspec := backup_disk_tar_spec f dom disk prop tp defn s dt pl hdate hpleq hin hcmp
  refine ⟨?_, ?_, ?_⟩
  · intro hcf
    simp only [DomBackup.backup_loop, hspec.1 hcf]
  · intro hcf hpv
    simp only [DomBackup.backup_loop, hspec.2 hcf, DomBackup.clean_for_disk_step]
    simp only [pendAfterTar, pendAfterTarget, hh, hpv, raiseAt]
    cases hdt : pyTruthyStr defn.tar <;> simp [hdt, List.append_assoc]
  · intro hcf hpv
    simp only [DomBackup.backup_loop, hspec.2 hcf, DomBackup.clean_for_disk_step]
    simp only [pendAfterTar, pendAfterTarget, hh, hpv]
    cases hdt : pyTruthyStr defn.tar <;> simp [hdt, List.append_assoc]

theorem backup_loop_cons_mismatch (f : Faults) (dom : Domain) (bt : BackupTarget)
    (rest : List (String × DiskProps)) (defn : Definition) (s : S) (dt : Nat)
    (pl : List (String × PendingDisk)) (disk : String) (prop : DiskProps)
    (hdate : defn.date = some dt) (hpleq : s.b.pending_info.disks = some pl)
    (hin : acontains pl disk = true)
    (hmis : (pyTruthyStr s.b.compression = true ∧ (∃ p, bt = BackupTarget.dir p)) ∨
            (pyTruthyStr s.b.compression = false ∧ (∃ tp, bt = BackupTarget.tarFile tp))) :
    DomBackup.backup_loop f dom bt ((disk, prop) :: rest) defn s =
      .error (.typeError,
        { s with
          b.pending_info := pendAfterTarget s.b.pending_info pl disk (targetImgName dom dt disk prop),
          w.fs.ledger := some (pendAfterTarget s.b.pending_info pl disk (targetImgName dom dt disk prop)),
          tr := s.tr ++ [Ev.recordTarget disk,
            Ev.writeLedger (pendAfterTarget s.b.pending_info pl disk (targetImgName dom dt disk prop)),
            Ev.failed .typeError] }) := by
  have hspec := backup_disk_mismatch_spec f dom disk prop bt defn s dt pl hdate hpleq hin hmis
  simp only [DomBackup.backup_loop, hspec]

/-- Gluing step for the loop induction: extend the postcondition for the
tail of the disk list by one completed per-disk block. -/
theorem loop_extend (q : PendingInfo → String → Bool) (dt : Nat)
    (rest : List (String × DiskProps)) (s s1 : S)
    (r : Except (BErr × S) (Definition × S))
    (Δ0 : List Ev) (disk : String) (prop : DiskProps)
    (hmatch : LoopPost q dt rest s1 r)
    (htr0 : s1.tr = s.tr ++ Δ0) (hseg0 : SegOk q Δ0)
    (hfil0 : Δ0.filter isDiskEv = [Ev.copyDisk disk, Ev.cleanForDisk disk])
    (hpres0 : PresB s s1) :
    LoopPost q dt ((disk, prop) :: rest) s r := by
  cases r with
  | ok r2 =>
    obtain ⟨defn2, s2⟩ := r2
    obtain ⟨Δ, htr, hseg, hfil, hpres, hih⟩ := hmatch
    refine ⟨Δ0 ++ Δ, ?_, SegOk_append hseg0 hseg, ?_, PresB_trans hpres0 hpres, hih⟩
    · rw [htr, htr0, List.append_assoc]
    · rw [List.filter_append, hfil0, hfil]
      simp
  | error r2 =>
    obtain ⟨e, s2⟩ := r2
    obtain ⟨Δ, htr, hseg, hpres, hd2, hl2⟩ := hmatch
    refine ⟨Δ0 ++ Δ, ?_, ?_, PresB_trans hpres0 hpres, hd2, hl2⟩
    · rw [htr, htr0]
      simp [List.append_assoc]
    · rw [List.append_assoc]
      exact SegOk_append hseg0 hseg

/-- The per-disk loop of `start`, fully characterized (see `LoopPost`). -/
theorem backup_loop_spec (f : Faults) (dom : Domain) (bt : BackupTarget) (td : String)
    (dt : Nat) (cmp : Option String) (bdisks : List (String × DiskProps)) :
    ∀ (ds : List (String × DiskProps)) (defn : Definition) (s : S),
    defn.date = some dt →
    s.b.compression = cmp →
    s.b.disks = bdisks →
    s.b.target_dir = some td →
    s.b.ext_snapshot_helper.isSome = true →
    s.b.pending_info.date = some dt →
    s.w.fs.ledger ≠ none →
    (∀ dp ∈ ds, alookup bdisks dp.1 = some dp.2) →
    (∃ pl, s.b.pending_info.disks = some pl ∧ ∀ dp ∈ ds, acontains pl dp.1 = true) →
    (∀ tp, bt = BackupTarget.tarFile tp → tp = canonicalArchivePath cmp dom td dt) →
    LoopPost (C10Q bdisks cmp dom td dt) dt ds s (DomBackup.backup_loop f dom bt ds defn s) := by
  intro ds
  induction ds with
  | nil =>
    intro defn s hdate hcmp0 hbd htd hhelp hpdate hledg hds hpl hbt
    simp only [DomBackup.backup_loop]
    exact ⟨[], by simp, SegOk_nil _, by simp, PresB_refl s, hhelp, hpdate, hledg, hdate⟩
  | cons dp rest ih =>
    intro defn s hdate hcmp0 hbd htd hhelp hpdate hledg hds hpl hbt
    obtain ⟨disk, prop⟩ := dp
    obtain ⟨pl, hpleq, hplall⟩ := hpl
    have hin : acontains pl disk = true := hplall (disk, prop) (List.mem_cons_self _ _)
    have hlkd : alookup bdisks disk = some prop := hds (disk, prop) (List.mem_cons_self _ _)
    obtain ⟨h, hh⟩ : ∃ h, s.b.ext_snapshot_helper = some h := by
      cases hx : s.b.ext_snapshot_helper with
      | none => rw [hx] at hhelp; cases hhelp
      | some h0 => exact ⟨h0, rfl⟩
    cases hbtc : bt with
    | dir p =>
      subst hbtc
      cases hcmpT : pyTruthyStr s.b.compression with
      | true =>
        rw [backup_loop_cons_mismatch f dom (BackupTarget.dir p) rest defn s dt pl disk prop
          hdate hpleq hin (Or.inl ⟨hcmpT, p, rfl⟩)]
        refine ⟨[Ev.recordTarget disk,
          Ev.writeLedger (pendAfterTarget s.b.pending_info pl disk (targetImgName dom dt disk prop))],
          by simp, SegOk_seg_short _ _ _ _ (plainEnd_failed _),
          ⟨rfl, rfl, rfl, rfl, rfl, rfl, rfl⟩,
          by simpa [pendAfterTarget] using hpdate, by simp⟩
      | false =>
        have hcons := backup_loop_cons_dir f dom p rest defn s dt pl disk prop h
          hdate hpleq hin hcmpT hh
        cases hcf : f.copy disk with
        | true =>
          rw [hcons.1 hcf]
          refine ⟨[Ev.recordTarget disk,
            Ev.writeLedger (pendAfterTarget s.b.pending_info pl disk (targetImgName dom dt disk prop))],
            by simp, SegOk_seg_short _ _ _ _ (plainEnd_failed _),
            ⟨rfl, rfl, rfl, rfl, rfl, rfl, rfl⟩,
            by simpa [pendAfterTarget] using hpdate, by simp⟩
        | false =>
          have hq1 : C10Q bdisks cmp dom td dt
              (pendAfterTarget s.b.pending_info pl disk (targetImgName dom dt disk prop)) disk = true :=
            C10Q_pendAfterTarget bdisks cmp dom td dt s.b.pending_info pl disk prop hlkd
              (hcmp0 ▸ hcmpT) hin
          cases hpv : f.pivot disk with
          | true =>
            rw [hcons.2.1 hcf hpv]
            refine ⟨[Ev.recordTarget disk,
              Ev.writeLedger (pendAfterTarget s.b.pending_info pl disk (targetImgName dom dt disk prop)),
              Ev.copyDisk disk],
              by simp, SegOk_seg_blockP _ _ _ _ hq1 (plainEnd_failed _),
              ⟨rfl, rfl, rfl, rfl, rfl, rfl, rfl⟩,
              by simpa [pendAfterTarget] using hpdate, by simp⟩
          | false =>
            rw [hcons.2.2 hcf hpv]
            exact loop_extend _ dt rest s _ _
              [Ev.recordTarget disk,
                Ev.writeLedger (pendAfterTarget s.b.pending_info pl disk (targetImgName dom dt disk prop)),
                Ev.copyDisk disk, Ev.cleanForDisk disk] disk prop
              (ih _ _ (by simpa using hdate)
                (by simpa [pendAfterTarget] using hcmp0)
                (by simpa [pendAfterTarget] using hbd)
                (by simpa [pendAfterTarget] using htd)
                (by simp)
                (by simpa [pendAfterTarget] using hpdate)
                (by simp [domExtSnapshotCleanForDisk, pendAfterTarget])
                (fun dp2 hdp => hds dp2 (List.mem_cons_of_mem _ hdp))
                ⟨setDiskTarget pl disk (targetImgName dom dt disk prop),
                  by simp [pendAfterTarget],
                  fun dp2 hdp => by
                    rw [acontains_setDiskTarget]
                    exact hplall dp2 (List.mem_cons_of_mem _ hdp)⟩
                (fun tp2 htp2 => by cases htp2))
              (by simp [domExtSnapshotCleanForDisk])
              (SegOk_seg_blockP _ _ _ _ hq1 (plainEnd_cleanForDisk disk))
              (by simp [isDiskEv])
              ⟨rfl, rfl, rfl, rfl, rfl, rfl, rfl⟩
    | tarFile tp =>
      subst hbtc
      have htp : tp = canonicalArchivePath cmp dom td dt := hbt tp rfl
      cases hcmpT : pyTruthyStr s.b.compression with
      | false =>
        rw [backup_loop_cons_mismatch f dom (BackupTarget.tarFile tp) rest defn s dt pl disk prop
          hdate hpleq hin (Or.inr ⟨hcmpT, tp, rfl⟩)]
        refine ⟨[Ev.recordTarget disk,
          Ev.writeLedger (pendAfterTarget s.b.pending_info pl disk (targetImgName dom dt disk prop))],
          by simp, SegOk_seg_short _ _ _ _ (plainEnd_failed _),
          ⟨rfl, rfl, rfl, rfl, rfl, rfl, rfl⟩,
          by simpa [pendAfterTarget] using hpdate, by simp⟩
      | true =>
        have hcons := backup_loop_cons_tar f dom tp rest defn s dt pl disk prop h
          hdate hpleq hin hcmpT hh
        have hq2 : C10Q bdisks cmp dom td dt
            (pendAfterTar (pendAfterTarget s.b.pending_info pl disk (targetImgName dom dt disk prop)) tp) disk = true := by
          rw [htp]
          exact C10Q_pendAfterTar bdisks cmp dom td dt s.b.pending_info pl disk prop hlkd
            (hcmp0 ▸ hcmpT) hin
        cases hcf : f.copy disk with
        | true =>
          rw [hcons.1 hcf]
          refine ⟨[Ev.recordTarget disk,
            Ev.writeLedger (pendAfterTarget s.b.pending_info pl disk (targetImgName dom dt disk prop)),
            Ev.recordTar,
            Ev.writeLedger (pendAfterTar (pendAfterTarget s.b.pending_info pl disk (targetImgName dom dt disk prop)) tp)],
            by simp, SegOk_seg_shortT _ _ _ _ _ (plainEnd_failed _),
            ⟨rfl, rfl, rfl, rfl, rfl, rfl, rfl⟩,
            by simpa [pendAfterTar, pendAfterTarget] using hpdate, by simp⟩
        | false =>
          cases hpv : f.pivot disk with
          | true =>
            rw [hcons.2.1 hcf hpv]
            refine ⟨[Ev.recordTarget disk,
              Ev.writeLedger (pendAfterTarget s.b.pending_info pl disk (targetImgName dom dt disk prop)),
              Ev.recordTar,
              Ev.writeLedger (pendAfterTar (pendAfterTarget s.b.pending_info pl disk (targetImgName dom dt disk prop)) tp),
              Ev.copyDisk disk],
              by simp, SegOk_seg_blockT _ _ _ _ _ hq2 (plainEnd_failed _),
              ⟨rfl, rfl, rfl, rfl, rfl, rfl, rfl⟩,
              by simpa [pendAfterTar, pendAfterTarget] using hpdate, by simp⟩
          | false =>
            rw [hcons.2.2 hcf hpv]
            exact loop_extend _ dt rest s _ _
              [Ev.recordTarget disk,
                Ev.writeLedger (pendAfterTarget s.b.pending_info pl disk (targetImgName dom dt disk prop)),
                Ev.recordTar,
                Ev.writeLedger (pendAfterTar (pendAfterTarget s.b.pending_info pl disk (targetImgName dom dt disk prop)) tp),
                Ev.copyDisk disk, Ev.cleanForDisk disk] disk prop
              (ih _ _ (by cases hdt : pyTruthyStr defn.tar <;> simpa [hdt] using hdate)
                (by simpa [pendAfterTar, pendAfterTarget] using hcmp0)
                (by simpa [pendAfterTar, pendAfterTarget] using hbd)
                (by simpa [pendAfterTar, pendAfterTarget] using htd)
                (by simp)
                (by simpa [pendAfterTar, pendAfterTarget] using hpdate)
                (by simp [domExtSnapshotCleanForDisk, pendAfterTar, pendAfterTarget])
                (fun dp2 hdp => hds dp2 (List.mem_cons_of_mem _ hdp))
                ⟨setDiskTarget pl disk (targetImgName dom dt disk prop),
                  by simp [pendAfterTar, pendAfterTarget],
                  fun dp2 hdp => by
                    rw [acontains_setDiskTarget]
                    exact hplall dp2 (List.mem_cons_of_mem _ hdp)⟩
                hbt)
              (by simp [domExtSnapshotCleanForDisk])
              (SegOk_seg_blockT _ _ _ _ _ hq2 (plainEnd_cleanForDisk disk))
              (by simp [isDiskEv])
              ⟨rfl, rfl, rfl, rfl, rfl, rfl, rfl⟩

theorem acontains_map_self {α β : Type} (l : List (String × α))
    (g : String × α → β) (k : String) :
    acontains (l.map (fun dp => (dp.1, g dp))) k = acontains l k := by
  induction l with
  | nil => rfl
  | cons p rest ih =>
    unfold acontains at *
    by_cases hk : p.1 = k
    · simp [alookup, hk]
    · simp only [List.map_cons, alookup, hk, if_neg (by simpa using hk)]
      rw [show ((p.1, g p).1 == k) = (p.1 == k) from rfl]
      rw [show (p.1 == k) = false from by simpa using hk]
      exact ih

theorem snapshot_and_save_date_spec (f : Faults) (defn : Definition) (s : S)
    (h0 : DomExtSnapshot) (hh : s.b.ext_snapshot_helper = some h0) :
    (f.snap = true →
      DomBackup.snapshot_and_save_date f defn s =
        .error (.snapshotFailed, { s with tr := s.tr ++ [Ev.failed .snapshotFailed] })) ∧
    (f.snap = false →
      DomBackup.snapshot_and_save_date f defn s =
        .ok (s.w.now, { defn with date := some s.w.now },
          { s with
            b.ext_snapshot_helper := some { h0 with metadatas := some (mdOf h0 s.w) },
            b.pending_info := pendingOf { defn with date := some s.w.now } s.b.disks (mdOf h0 s.w),
            w.openSnaps := s.w.openSnaps ++ h0.disks.map (fun dp => dp.1),
            w.fs.ledger := some (pendingOf { defn with date := some s.w.now } s.b.disks (mdOf h0 s.w)),
            tr := s.tr ++ [Ev.snap,
              Ev.writeLedger (pendingOf { defn with date := some s.w.now } s.b.disks (mdOf h0 s.w))] })) := by
  constructor
  · intro hsf
    simp [DomBackup.snapshot_and_save_date, hh, domExtSnapshotStart, hsf, raiseAt]
  · intro hsf
    simp [DomBackup.snapshot_and_save_date, hh, domExtSnapshotStart, hsf,
      DomBackup.dump_pending_info, mdOf]

/-! ## Cleanup-path lemmas -/

theorem domExtSnapshotClean_fs (h : DomExtSnapshot) (w : World) :
    (domExtSnapshotClean h w).2.fs = w.fs := by
  unfold domExtSnapshotClean
  cases h.metadatas <;> rfl

theorem domExtSnapshotClean_now (h : DomExtSnapshot) (w : World) :
    (domExtSnapshotClean h w).2.now = w.now := by
  unfold domExtSnapshotClean
  cases h.metadatas <;> rfl

theorem mem_filter_ne {l : List String} {p x : String}
    (hx : x ∈ l.filter (fun q => q != p)) : x ∈ l ∧ x ≠ p := by
  have := List.mem_filter.mp hx
  exact ⟨this.1, by simpa using this.2⟩

theorem deleteWEP_walk (f : Faults) (p : String) (s : S) :
    ∃ Δ0, (deleteWithErrorPrinting f p s).tr = s.tr ++ Δ0 ∧
      (∀ e ∈ Δ0, ∃ q, e = Ev.deleteFile q) ∧
      (deleteWithErrorPrinting f p s).b = s.b ∧
      (deleteWithErrorPrinting f p s).w.fs.ledger = s.w.fs.ledger ∧
      (deleteWithErrorPrinting f p s).w.openSnaps = s.w.openSnaps ∧
      (deleteWithErrorPrinting f p s).w.now = s.w.now ∧
      (∀ x, x ∈ (deleteWithErrorPrinting f p s).w.fs.files → x ∈ s.w.fs.files) ∧
      (f.deleteFail p = false → p ∉ (deleteWithErrorPrinting f p s).w.fs.files) := by
  cases hdf : f.deleteFail p with
  | true =>
    refine ⟨[], by simp [deleteWithErrorPrinting, hdf], by simp,
      by simp [deleteWithErrorPrinting, hdf], by simp [deleteWithErrorPrinting, hdf],
      by simp [deleteWithErrorPrinting, hdf], by simp [deleteWithErrorPrinting, hdf],
      fun x hx => by simpa [deleteWithErrorPrinting, hdf] using hx,
      fun hc => by simp [hdf] at hc⟩
  | false =>
    refine ⟨[Ev.deleteFile p], ?_, ?_, ?_, ?_, ?_, ?_, ?_, ?_⟩
    · simp [deleteWithErrorPrinting, hdf]
    · simp
    · simp [deleteWithErrorPrinting, hdf]
    · simp [deleteWithErrorPrinting, hdf]
    · simp [deleteWithErrorPrinting, hdf]
    · simp [deleteWithErrorPrinting, hdf]
    · intro x hx
      simp only [deleteWithErrorPrinting, hdf, Bool.false_eq_true, if_false] at hx
      exact (mem_filter_ne hx).1
    · intro _
      simp only [deleteWithErrorPrinting, hdf, Bool.false_eq_true, if_false]
      intro hp
      exact (mem_filter_ne hp).2 rfl

theorem clean_targets_spec (f : Faults) (td : String) :
    ∀ (l : List (String × PendingDisk)) (s : S), s.b.target_dir = some td →
    ∃ Δ s2, DomBackup.clean_targets f l s = .ok s2 ∧
      s2.tr = s.tr ++ Δ ∧ (∀ e ∈ Δ, ∃ p, e = Ev.deleteFile p) ∧
      s2.b = s.b ∧ s2.w.fs.ledger = s.w.fs.ledger ∧
      s2.w.openSnaps = s.w.openSnaps ∧ s2.w.now = s.w.now ∧
      (∀ x, x ∈ s2.w.fs.files → x ∈ s.w.fs.files) ∧
      ((∀ p, f.deleteFail p = false) →
        ∀ pd ∈ l, pyTruthyStr pd.2.target = true →
          pathJoin td (pd.2.target.getD ("")) ∉ s2.w.fs.files) := by
  intro l
  induction l with
  | nil =>
    intro s _
    exact ⟨[], s, rfl, by simp, by simp, rfl, rfl, rfl, rfl, fun _ h => h, by simp⟩
  | cons hd rest ih =>
    intro s htd
    obtain ⟨k, pd⟩ := hd
    cases htr : pyTruthyStr pd.target with
    | false =>
      obtain ⟨Δ, s2, heq, htrq, hdel, hb, hl, ho, hn, hsub, hnf⟩ := ih s htd
      refine ⟨Δ, s2, ?_, htrq, hdel, hb, hl, ho, hn, hsub, ?_⟩
      · simpa [DomBackup.clean_targets, htr] using heq
      · intro hf pd2 hm ht2
        rcases List.mem_cons.mp hm with heq2 | hm2
        · subst heq2
          exact absurd ht2 (by simp [htr])
        · exact hnf hf pd2 hm2 ht2
    | true =>
      have hpath : DomBackup.get_complete_path_of s.b (pd.target.getD ("")) =
          some (pathJoin td (pd.target.getD (""))) := by
        simp [DomBackup.get_complete_path_of, htd, pathJoin]
      cases hmem : s.w.fs.files.contains (pathJoin td (pd.target.getD (""))) with
      | false =>
        have hno : pathJoin td (pd.target.getD ("")) ∉ s.w.fs.files := by simpa using hmem
        obtain ⟨Δ, s2, heq, htrq, hdel, hb, hl, ho, hn, hsub, hnf⟩ := ih s htd
        refine ⟨Δ, s2, ?_, htrq, hdel, hb, hl, ho, hn, hsub, ?_⟩
        · simpa [DomBackup.clean_targets, htr, hpath, hno] using heq
        · intro hf pd2 hm ht2
          rcases List.mem_cons.mp hm with heq2 | hm2
          · subst heq2
            intro hx
            exact hno (hsub _ hx)
          · exact hnf hf pd2 hm2 ht2
      | true =>
        have hyes : pathJoin td (pd.target.getD ("")) ∈ s.w.fs.files := by simpa using hmem
        obtain ⟨Δ0, h0tr, h0del, h0b, h0l, h0o, h0n, h0sub, h0gone⟩ :=
          deleteWEP_walk f (pathJoin td (pd.target.getD (""))) s
        obtain ⟨Δ, s2, heq, htrq, hdel, hb, hl, ho, hn, hsub, hnf⟩ :=
          ih (deleteWithErrorPrinting f (pathJoin td (pd.target.getD (""))) s)
            (by rw [h0b]; exact htd)
        refine ⟨Δ0 ++ Δ, s2, ?_, ?_, ?_, ?_, ?_, ?_, ?_, ?_, ?_⟩
        · simpa [DomBackup.clean_targets, htr, hpath, hyes] using heq
        · rw [htrq, h0tr, List.append_assoc]
        · intro e he
          rcases List.mem_append.mp he with h | h
          · exact h0del e h
          · exact hdel e h
        · rw [hb, h0b]
        · rw [hl, h0l]
        · rw [ho, h0o]
        · rw [hn, h0n]
        · intro x hx
          exact h0sub _ (hsub _ hx)
        · intro hf pd2 hm ht2
          rcases List.mem_cons.mp hm with heq2 | hm2
          · subst heq2
            intro hx
            exact h0gone (hf _) (hsub _ hx)
          · exact hnf hf pd2 hm2 ht2

theorem clean_targets_no_targets (f : Faults) :
    ∀ (l : List (String × PendingDisk)) (s : S),
    (∀ pd ∈ l, pyTruthyStr pd.2.target = false) →
    DomBackup.clean_targets f l s = .ok s := by
  intro l
  induction l with
  | nil => intro s _; rfl
  | cons hd rest ih =>
    intro s hall
    obtain ⟨k, pd⟩ := hd
    have hh := hall (k, pd) (List.mem_cons_self _ _)
    simp only at hh
    simp only [DomBackup.clean_targets, hh]
    exact ih s (fun pd2 hm => hall pd2 (List.mem_cons_of_mem _ hm))

theorem clean_aborted_tar_spec (f : Faults) (td t : String) (s : S)
    (htd : s.b.target_dir = some td) (htar : s.b.pending_info.tar = some t) :
    ∃ Δ s2, DomBackup.clean_aborted_tar f s = .ok s2 ∧
      s2.tr = s.tr ++ Δ ∧ (∀ e ∈ Δ, ∃ p, e = Ev.deleteFile p) ∧
      s2.b = s.b ∧ s2.w.fs.ledger = s.w.fs.ledger ∧
      s2.w.openSnaps = s.w.openSnaps ∧ s2.w.now = s.w.now ∧
      (∀ x, x ∈ s2.w.fs.files → x ∈ s.w.fs.files) ∧
      ((∀ p, f.deleteFail p = false) → pathJoin td t ∉ s2.w.fs.files) := by
  have hpath : DomBackup.get_complete_path_of s.b t = some (pathJoin td t) := by
    simp [DomBackup.get_complete_path_of, htd, pathJoin]
  cases hmem : s.w.fs.files.contains (pathJoin td t) with
  | false =>
    have hno : pathJoin td t ∉ s.w.fs.files := by simpa using hmem
    refine ⟨[], s, ?_, by simp, by simp, rfl, rfl, rfl, rfl, fun _ h => h, ?_⟩
    · simp [DomBackup.clean_aborted_tar, htar, hpath, hno]
    · intro _ hx
      exact hno hx
  | true =>
    have hyes : pathJoin td t ∈ s.w.fs.files := by simpa using hmem
    obtain ⟨Δ0, h0tr, h0del, h0b, h0l, h0o, h0n, h0sub, h0gone⟩ :=
      deleteWEP_walk f (pathJoin td t) s
    refine ⟨Δ0, deleteWithErrorPrinting f (pathJoin td t) s, ?_, h0tr, h0del,
      h0b, h0l, h0o, h0n, h0sub, fun hf => h0gone (hf _)⟩
    simp [DomBackup.clean_aborted_tar, htar, hpath, hyes]

theorem clean_pending_info_none (s : S) (h : s.b.pending_info.date = none) :
    DomBackup.clean_pending_info s = .error (.keyError, s) := by
  simp [DomBackup.clean_pending_info, h]

theorem clean_pending_info_some (s : S) (dt : Nat) (pi : PendingInfo)
    (h : s.b.pending_info.date = some dt) (hl : s.w.fs.ledger = some pi) :
    DomBackup.clean_pending_info s =
      .ok { s with w.fs.ledger := none, b.pending_info := {},
                   tr := s.tr ++ [Ev.deleteLedger] } := by
  simp [DomBackup.clean_pending_info, h, hl]

theorem swallowKeyError_ok (s2 : S) : swallowKeyError (.ok s2) = .ok s2 := rfl

theorem swallowKeyError_key (s2 : S) :
    swallowKeyError (.error (.keyError, s2)) = .ok s2 := rfl

theorem clean_aborted_phase2_ok (f : Faults) (sC sD : S)
    (h : (if pyTruthyStr sC.b.pending_info.tar then DomBackup.clean_aborted_tar f sC
          else DomBackup.clean_aborted_non_tar_img f sC) = .ok sD) :
    DomBackup.clean_aborted_phase2 f sC =
      swallowKeyError (DomBackup.clean_pending_info sD) := by
  unfold DomBackup.clean_aborted_phase2
  rw [h]

theorem clean_aborted_tail (f : Faults) (td : String) (sC : S)
    (htd : sC.b.target_dir = some td)
    (hlg : sC.b.pending_info.date ≠ none → sC.w.fs.ledger ≠ none) :
    ∃ Δt s2, DomBackup.clean_aborted_phase2 f sC = .ok s2 ∧
      s2.tr = sC.tr ++ Δt ∧
      (∀ e ∈ Δt, (∃ p, e = Ev.deleteFile p) ∨ e = Ev.deleteLedger) ∧
      s2.b.running = sC.b.running ∧ s2.b.target_dir = sC.b.target_dir ∧
      s2.w.openSnaps = sC.w.openSnaps ∧
      (sC.b.pending_info.date ≠ none →
        Δt.getLast? = some Ev.deleteLedger ∧ s2.w.fs.ledger = none ∧
        s2.b.pending_info = {}) ∧
      (sC.b.pending_info.date = none →
        s2.w.fs.ledger = sC.w.fs.ledger ∧ s2.b.pending_info = sC.b.pending_info) ∧
      (∀ x, x ∈ s2.w.fs.files → x ∈ sC.w.fs.files) ∧
      ((∀ p, f.deleteFail p = false) →
        (∀ t, sC.b.pending_info.tar = some t → t ≠ "" →
          pathJoin td t ∉ s2.w.fs.files) ∧
        (pyTruthyStr sC.b.pending_info.tar = false →
          ∀ pd ∈ (sC.b.pending_info.disks).getD [],
            pyTruthyStr pd.2.target = true →
              pathJoin td (pd.2.target.getD ("")) ∉ s2.w.fs.files)) := by
  have hstep : ∃ Δd sD,
      (if pyTruthyStr sC.b.pending_info.tar then DomBackup.clean_aborted_tar f sC
       else DomBackup.clean_aborted_non_tar_img f sC) = .ok sD ∧
      sD.tr = sC.tr ++ Δd ∧ (∀ e ∈ Δd, ∃ p, e = Ev.deleteFile p) ∧
      sD.b = sC.b ∧ sD.w.fs.ledger = sC.w.fs.ledger ∧
      sD.w.openSnaps = sC.w.openSnaps ∧
      (∀ x, x ∈ sD.w.fs.files → x ∈ sC.w.fs.files) ∧
      ((∀ p, f.deleteFail p = false) →
        (∀ t, sC.b.pending_info.tar = some t → t ≠ "" →
          pathJoin td t ∉ sD.w.fs.files) ∧
        (pyTruthyStr sC.b.pending_info.tar = false →
          ∀ pd ∈ (sC.b.pending_info.disks).getD [],
            pyTruthyStr pd.2.target = true →
              pathJoin td (pd.2.target.getD ("")) ∉ sD.w.fs.files)) := by
    cases htar : pyTruthyStr sC.b.pending_info.tar with
    | true =>
      have htv : ∃ t, sC.b.pending_info.tar = some t := by
        cases hv : sC.b.pending_info.tar with
        | none => rw [hv] at htar; exact absurd htar (by simp [pyTruthyStr])
        | some t => exact ⟨t, rfl⟩
      obtain ⟨t, htv⟩ := htv
      obtain ⟨Δd, sD, hok, htrq, hdel, hb, hl, ho, _, hsub, hgone⟩ :=
        clean_aborted_tar_spec f td t sC htd htv
      refine ⟨Δd, sD, by simp [htar, hok], htrq, hdel, hb, hl, ho, hsub, ?_⟩
      intro hf
      constructor
      · intro t2 ht2 _
        rw [htv] at ht2
        obtain rfl : t = t2 := Option.some.inj ht2
        exact hgone hf
      · intro hfalse
        simp [htar] at hfalse
    | false =>
      obtain ⟨Δd, sD, hok, htrq, hdel, hb, hl, ho, _, hsub, hgone⟩ :=
        clean_targets_spec f td ((sC.b.pending_info.disks).getD []) sC htd
      refine ⟨Δd, sD, ?_, htrq, hdel, hb, hl, ho, hsub, ?_⟩
      · simp [htar, DomBackup.clean_aborted_non_tar_img, hok]
      · intro hf
        constructor
        · intro t2 ht2 hne
          rw [ht2] at htar
          exact absurd htar (by simp [pyTruthyStr, hne])
        · intro _
          exact hgone hf
  obtain ⟨Δd, sD, hok, htrq, hdel, hb, hl, ho, hsub, hstrong⟩ := hstep
  rw [clean_aborted_phase2_ok f sC sD hok]
  cases hdt : sC.b.pending_info.date with
  | none =>
    rw [clean_pending_info_none sD (by rw [hb]; exact hdt), swallowKeyError_key]
    refine ⟨Δd, sD, rfl, htrq, ?_, by rw [hb], by rw [hb], ho, ?_, ?_, hsub, hstrong⟩
    · intro e he
      exact Or.inl (hdel e he)
    · intro hcon
      exact absurd rfl hcon
    · intro _
      exact ⟨hl, by rw [hb]⟩
  | some d =>
    have hlg2 : sD.w.fs.ledger ≠ none := by
      rw [hl]
      exact hlg (by rw [hdt]; simp)
    cases hlv : sD.w.fs.ledger with
    | none => exact absurd hlv hlg2
    | some pi =>
      rw [clean_pending_info_some sD d pi (by rw [hb]; exact hdt) hlv,
        swallowKeyError_ok]
      refine ⟨Δd ++ [Ev.deleteLedger], _, rfl, ?_, ?_, by simp [hb], by simp [hb],
        by simpa using ho, ?_, ?_, ?_, ?_⟩
      · simp [htrq]
      · intro e he
        rcases List.mem_append.mp he with h | h
        · exact Or.inl (hdel e h)
        · rcases List.mem_singleton.mp h with rfl
          exact Or.inr rfl
      · intro _
        refine ⟨?_, rfl, rfl⟩
        rw [List.getLast?_concat]
      · intro hcon
        exact absurd hcon (by simp)
      · intro x hx
        exact hsub x (by simpa using hx)
      · intro hf
        obtain ⟨h1, h2⟩ := hstrong hf
        constructor
        · intro t2 ht2 hne hx
          exact h1 t2 ht2 hne (by simpa using hx)
        · intro hfalse pd hm ht2 hx
          exact h2 hfalse pd hm ht2 (by simpa using hx)

theorem clean_aborted_red_rec (f : Faults) (s : S)
    (hh : s.b.ext_snapshot_helper = none)
    (hpl : pyTruthyList s.b.pending_info.disks = true) :
    DomBackup.clean_aborted f s = DomBackup.clean_aborted_phase2 f
      { s with
        b.ext_snapshot_helper := some
          { disks := s.b.disks, timeout := s.b.timeout, metadatas := none },
        w.openSnaps := s.w.openSnaps.filter
          (fun d => !((reconstructedMetadata
            ((s.b.pending_info.disks).getD [])).disks.any (fun p => p.1 == d))),
        tr := s.tr ++ [Ev.cleanAbortedRun, Ev.releaseSnapshots] } := by
  simp [DomBackup.clean_aborted, hh, hpl, domExtSnapshotClean]

theorem clean_aborted_red_helper (f : Faults) (s : S) (h : DomExtSnapshot)
    (hh : s.b.ext_snapshot_helper = some h) :
    DomBackup.clean_aborted f s = DomBackup.clean_aborted_phase2 f
      { s with
        b.ext_snapshot_helper := some (domExtSnapshotClean h s.w).1,
        w := (domExtSnapshotClean h s.w).2,
        tr := s.tr ++ [Ev.cleanAbortedRun, Ev.releaseSnapshots] } := by
  simp [DomBackup.clean_aborted, hh]

theorem clean_aborted_red_none (f : Faults) (s : S)
    (hh : s.b.ext_snapshot_helper = none)
    (hpl : pyTruthyList s.b.pending_info.disks = false) :
    DomBackup.clean_aborted f s = DomBackup.clean_aborted_phase2 f
      { s with tr := s.tr ++ [Ev.cleanAbortedRun] } := by
  simp [DomBackup.clean_aborted, hh, hpl]

theorem getLast?_cons_some (x y : Ev) (l : List Ev) (h : l.getLast? = some y) :
    (x :: l).getLast? = some y := by
  cases l with
  | nil => simp at h
  | cons z zs => rw [List.getLast?_cons_cons]; exact h

theorem clean_aborted_spec (f : Faults) (td : String) (s : S)
    (htd : s.b.target_dir = some td)
    (hlg : s.b.pending_info.date ≠ none → s.w.fs.ledger ≠ none) :
    ∃ Δc s2, DomBackup.clean_aborted f s = .ok s2 ∧
      s2.tr = s.tr ++ [Ev.cleanAbortedRun] ++ Δc ∧
      (∀ e ∈ Δc, e = Ev.releaseSnapshots ∨ (∃ p, e = Ev.deleteFile p) ∨
        e = Ev.deleteLedger) ∧
      s2.b.running = s.b.running ∧ s2.b.target_dir = s.b.target_dir ∧
      (s.b.pending_info.date ≠ none →
        Δc.getLast? = some Ev.deleteLedger ∧ s2.w.fs.ledger = none ∧
        s2.b.pending_info = {}) ∧
      (s.b.pending_info.date = none →
        s2.w.fs.ledger = s.w.fs.ledger ∧ s2.b.pending_info = s.b.pending_info) ∧
      (s.b.ext_snapshot_helper = none → pyTruthyList s.b.pending_info.disks = true →
        Δc.head? = some Ev.releaseSnapshots ∧
        s2.w.openSnaps = s.w.openSnaps.filter
          (fun d => !((reconstructedMetadata
            ((s.b.pending_info.disks).getD [])).disks.any (fun p => p.1 == d)))) ∧
      (∀ x, x ∈ s2.w.fs.files → x ∈ s.w.fs.files) ∧
      ((∀ p, f.deleteFail p = false) →
        (∀ t, s.b.pending_info.tar = some t → t ≠ "" →
          pathJoin td t ∉ s2.w.fs.files) ∧
        (pyTruthyStr s.b.pending_info.tar = false →
          ∀ pd ∈ (s.b.pending_info.disks).getD [],
            pyTruthyStr pd.2.target = true →
              pathJoin td (pd.2.target.getD ("")) ∉ s2.w.fs.files)) := by
  cases hh : s.b.ext_snapshot_helper with
  | none =>
    cases hpl : pyTruthyList s.b.pending_info.disks with
    | true =>
      rw [clean_aborted_red_rec f s hh hpl]
      obtain ⟨Δt, s2, hok, htr, hev, hrun, htd2, hsn, hdsome, hdnone, hsub, hstr⟩ :=
        clean_aborted_tail f td
          { s with
            b.ext_snapshot_helper := some
              { disks := s.b.disks, timeout := s.b.timeout, metadatas := none },
            w.openSnaps := s.w.openSnaps.filter
              (fun d => !((reconstructedMetadata
                ((s.b.pending_info.disks).getD [])).disks.any (fun p => p.1 == d))),
            tr := s.tr ++ [Ev.cleanAbortedRun, Ev.releaseSnapshots] }
          (by simpa using htd) (by simpa using hlg)
      refine ⟨Ev.releaseSnapshots :: Δt, s2, hok, ?_, ?_, by simpa using hrun,
        by simpa using htd2, ?_, ?_, ?_, by simpa using hsub, by simpa using hstr⟩
      · rw [htr]
        simp
      · intro e he
        rcases List.mem_cons.mp he with rfl | hm
        · exact Or.inl rfl
        · rcases hev e hm with h | h
          · exact Or.inr (Or.inl h)
          · exact Or.inr (Or.inr h)
      · intro hd
        obtain ⟨h1, h2, h3⟩ := hdsome (by simpa using hd)
        exact ⟨getLast?_cons_some _ _ _ h1, h2, h3⟩
      · intro hd
        obtain ⟨h1, h2⟩ := hdnone (by simpa using hd)
        exact ⟨h1, h2⟩
      · intro _ _
        exact ⟨rfl, by simpa using hsn⟩
    | false =>
      rw [clean_aborted_red_none f s hh hpl]
      obtain ⟨Δt, s2, hok, htr, hev, hrun, htd2, hsn, hdsome, hdnone, hsub, hstr⟩ :=
        clean_aborted_tail f td { s with tr := s.tr ++ [Ev.cleanAbortedRun] }
          (by simpa using htd) (by simpa using hlg)
      refine ⟨Δt, s2, hok, ?_, ?_, by simpa using hrun,
        by simpa using htd2, ?_, ?_, ?_, by simpa using hsub, by simpa using hstr⟩
      · simp [htr]
      · intro e he
        rcases hev e he with h | h
        · exact Or.inr (Or.inl h)
        · exact Or.inr (Or.inr h)
      · intro hd
        exact hdsome (by simpa using hd)
      · intro hd
        exact hdnone (by simpa using hd)
      · intro _ hcon
        simp at hcon
  | some h =>
    rw [clean_aborted_red_helper f s h hh]
    obtain ⟨Δt, s2, hok, htr, hev, hrun, htd2, hsn, hdsome, hdnone, hsub, hstr⟩ :=
      clean_aborted_tail f td
        { s with
          b.ext_snapshot_helper := some (domExtSnapshotClean h s.w).1,
          w := (domExtSnapshotClean h s.w).2,
          tr := s.tr ++ [Ev.cleanAbortedRun, Ev.releaseSnapshots] }
        (by simpa using htd) (by simpa [domExtSnapshotClean_fs] using hlg)
    refine ⟨Ev.releaseSnapshots :: Δt, s2, hok, ?_, ?_, by simpa using hrun,
      by simpa using htd2, ?_, ?_, ?_, ?_, ?_⟩
    · rw [htr]
      simp
    · intro e he
      rcases List.mem_cons.mp he with rfl | hm
      · exact Or.inl rfl
      · rcases hev e hm with h2 | h2
        · exact Or.inr (Or.inl h2)
        · exact Or.inr (Or.inr h2)
    · intro hd
      obtain ⟨h1, h2, h3⟩ := hdsome (by simpa using hd)
      exact ⟨getLast?_cons_some _ _ _ h1, h2, h3⟩
    · intro hd
      obtain ⟨h1, h2⟩ := hdnone (by simpa using hd)
      refine ⟨?_, h2⟩
      rw [h1]
      simp [domExtSnapshotClean_fs]
    · intro hcon _
      exact absurd hcon (by simp)
    · intro x hx
      have := hsub x hx
      simpa [domExtSnapshotClean_fs] using this
    · intro hf
      obtain ⟨h1, h2⟩ := hstr hf
      constructor
      · intro t2 ht2 hne hx
        exact h1 t2 (by simpa using ht2) hne (by simpa [domExtSnapshotClean_fs] using hx)
      · intro hfalse pd hm ht2 hx
        exact h2 (by simpa using hfalse) pd (by simpa using hm) ht2
          (by simpa [domExtSnapshotClean_fs] using hx)

theorem start_finish_spec (f : Faults) (defn : Definition) (s : S) (dt : Nat)
    (hdate : defn.date = some dt) (hH : s.b.ext_snapshot_helper.isSome = true)
    (hpd : s.b.pending_info.date = some dt) (hl : s.w.fs.ledger ≠ none) :
    FinishPost dt s (DomBackup.start_finish f defn s) := by
  cases hdd : f.dumpDef with
  | true =>
    have h1 : DomBackup.dump_json_definition f defn s =
        .error (.definitionWriteFailed,
          { s with tr := s.tr ++ [Ev.failed .definitionWriteFailed] }) := by
      simp [DomBackup.dump_json_definition, hdate, hdd, raiseAt]
    simp only [DomBackup.start_finish, h1]
    exact ⟨[], by simp, Or.inl rfl, hpd, hl, rfl⟩
  | false =>
    have h1 : DomBackup.dump_json_definition f defn s =
        .ok { s with w.fs.definitionFile := some defn,
                     tr := s.tr ++ [Ev.writeDefinition] } := by
      simp [DomBackup.dump_json_definition, hdate, hdd]
    obtain ⟨h, hh⟩ := Option.isSome_iff_exists.mp hH
    cases hpo : f.post with
    | true =>
      have h2 : DomBackup.post_backup f
          { s with w.fs.definitionFile := some defn,
                   tr := s.tr ++ [Ev.writeDefinition] } =
        .error (.postBackupFailed,
          { s with
            b.ext_snapshot_helper := none,
            w := (domExtSnapshotClean h
              { s.w with fs.definitionFile := some defn }).2,
            tr := s.tr ++ [Ev.writeDefinition, Ev.releaseSnapshots,
              Ev.failed .postBackupFailed] }) := by
        simp [DomBackup.post_backup, hh, hpo, raiseAt]
      simp only [DomBackup.start_finish, h1, h2]
      refine ⟨[Ev.writeDefinition, Ev.releaseSnapshots], by simp, Or.inr rfl,
        by simpa using hpd, ?_, rfl⟩
      simpa [domExtSnapshotClean_fs] using hl
    | false =>
      have h2 : DomBackup.post_backup f
          { s with w.fs.definitionFile := some defn,
                   tr := s.tr ++ [Ev.writeDefinition] } =
        .ok { s with
            b.ext_snapshot_helper := none,
            b.running := false,
            w := (domExtSnapshotClean h
              { s.w with fs.definitionFile := some defn }).2,
            tr := s.tr ++ [Ev.writeDefinition, Ev.releaseSnapshots,
              Ev.postBackup] } := by
        simp [DomBackup.post_backup, hh, hpo]
      cases hpi : s.w.fs.ledger with
      | none => exact absurd hpi hl
      | some pi =>
        have h3 := clean_pending_info_some
          { s with
            b.ext_snapshot_helper := none,
            b.running := false,
            w := (domExtSnapshotClean h
              { s.w with fs.definitionFile := some defn }).2,
            tr := s.tr ++ [Ev.writeDefinition, Ev.releaseSnapshots,
              Ev.postBackup] } dt pi (by simpa using hpd)
          (by simp [domExtSnapshotClean_fs, hpi])
        simp only [DomBackup.start_finish, h1, h2, h3]
        exact ⟨by simp, by simp, rfl, rfl⟩

/-! ## Scanner facts for whole-run assembly -/

theorem noWriteBeforeSnap_of_no_write (l : List Ev)
    (h : ∀ e ∈ l, ∀ pi, e ≠ Ev.writeLedger pi) : noWriteBeforeSnap l = true := by
  induction l with
  | nil => rfl
  | cons e rest ih =>
    have htl := fun x hx => h x (List.mem_cons_of_mem _ hx)
    cases e with
    | snap => rfl
    | writeLedger pi => exact absurd rfl (h _ (List.mem_cons_self _ _) pi)
    | _ => simpa [noWriteBeforeSnap] using ih htl

theorem noWriteBeforeSnap_snap_head (l y : List Ev)
    (h : l.head? = some Ev.snap) : noWriteBeforeSnap (l ++ y) = true := by
  cases l with
  | nil => simp at h
  | cons e rest =>
    have he : e = Ev.snap := by simpa using h
    subst he
    rfl

theorem deleteOnlyAfter_of_no_delete (l : List Ev) :
    ∀ (allowed : Bool), (∀ e ∈ l, e ≠ Ev.deleteLedger) →
      deleteOnlyAfter allowed l = true := by
  induction l with
  | nil => intro allowed _; rfl
  | cons e rest ih =>
    intro allowed h
    have htl := fun x hx => h x (List.mem_cons_of_mem _ hx)
    cases e with
    | deleteLedger => exact absurd rfl (h _ (List.mem_cons_self _ _))
    | writeDefinition => simpa [deleteOnlyAfter] using ih true htl
    | cleanAbortedRun => simpa [deleteOnlyAfter] using ih true htl
    | _ => simpa [deleteOnlyAfter] using ih allowed htl

theorem deleteOnlyAfter_finish_tail (a : Bool) :
    deleteOnlyAfter a [Ev.writeDefinition, Ev.releaseSnapshots, Ev.postBackup,
      Ev.deleteLedger] = true := rfl

/-- The loop-then-finish half of the try body, characterized relative to
the pre-loop state `s1` and the overall start state `s` (`Δ0` is the trace
the run produced between `s` and `s1`). -/
theorem loop_and_finish_spec (f : Faults) (dom : Domain) (bt : BackupTarget)
    (td : String) (dt : Nat) (cmp : Option String)
    (bdisks ds : List (String × DiskProps)) (defn1 : Definition)
    (s1 s : S) (Δ0 : List Ev)
    (hds0 : ds = bdisks)
    (hdate : defn1.date = some dt)
    (hcmp : s1.b.compression = cmp)
    (hbd : s1.b.disks = bdisks)
    (htd1 : s1.b.target_dir = some td)
    (htds : s.b.target_dir = some td)
    (hhelp : s1.b.ext_snapshot_helper.isSome = true)
    (hpdate : s1.b.pending_info.date = some dt)
    (hledg : s1.w.fs.ledger ≠ none)
    (hnodup : ∀ dp ∈ ds, alookup bdisks dp.1 = some dp.2)
    (hpl : ∃ pl, s1.b.pending_info.disks = some pl ∧
      ∀ dp ∈ ds, acontains pl dp.1 = true)
    (hbt : ∀ tp, bt = BackupTarget.tarFile tp → tp = canonicalArchivePath cmp dom td dt)
    (htr1 : s1.tr = s.tr ++ Δ0)
    (hpre_snap : Δ0.head? = some Ev.snap)
    (hpre_adj : ∀ nx, adjOkW Δ0 nx = true)
    (hpre_cov : copiesCovered (C10Q bdisks cmp dom td dt) none Δ0 = true)
    (hpre_nodel : ∀ e ∈ Δ0, e ≠ Ev.deleteLedger)
    (hpre_nodisk : Δ0.filter isDiskEv = []) :
    TryPost (C10Q bdisks cmp dom td dt) bdisks s
      (DomBackup.loop_and_finish f dom bt ds defn1 s1) := by
  have hlp := backup_loop_spec f dom bt td dt cmp bdisks ds defn1 s1 hdate hcmp hbd
    htd1 hhelp hpdate hledg hnodup hpl hbt
  unfold DomBackup.loop_and_finish
  cases hres : DomBackup.backup_loop f dom bt ds defn1 s1 with
  | error es =>
    rw [hres] at hlp
    obtain ⟨e2, s2⟩ := es
    obtain ⟨Δ, htr, hseg, hpres, hd2, hl2⟩ := hlp
    obtain ⟨hadj, hcov, hns⟩ := hseg
    refine ⟨Δ0 ++ Δ, ?_, ?_, ?_, ?_, ?_, ?_, ?_, ?_⟩
    · rw [htr, htr1]
      simp
    · rw [List.append_assoc]
      exact noWriteBeforeSnap_snap_head _ _ hpre_snap
    · intro nx
      rw [List.append_assoc, adjOkW_append, hpre_adj, hadj]
      rfl
    · rw [List.append_assoc]
      apply deleteOnlyAfter_of_no_delete
      intro e he
      rcases List.mem_append.mp he with h | h
      · exact hpre_nodel e h
      · exact ((hns e h).2.2.1)
    · rw [List.append_assoc, copiesCovered_append, hpre_cov, hcov]
      rfl
    · rw [hpres.2.2.1, htd1, htds]
    · intro _
      exact hl2
    · intro hcon
      rw [hd2] at hcon
      exact absurd hcon (by simp)
  | ok r2 =>
    obtain ⟨defn2, s5⟩ := r2
    rw [hres] at hlp
    obtain ⟨Δ, htr, hseg, hfil, hpres, hH5, hpd5, hl5, hdd2⟩ := hlp
    obtain ⟨hadj, hcov, hns⟩ := hseg
    have hfin := start_finish_spec f defn2 s5 dt hdd2 hH5 hpd5 hl5
    cases hfres : DomBackup.start_finish f defn2 s5 with
    | error es =>
      simp only [hfres]
      rw [hfres] at hfin
      obtain ⟨e2, s6⟩ := es
      obtain ⟨Δf, htrf, hshape, hd6, hl6, htd6⟩ := hfin
      have hΔfprops : (∀ e ∈ Δf, trigger e = false ∧ (∀ d, e ≠ Ev.copyDisk d) ∧
          (∀ pi, e ≠ Ev.writeLedger pi) ∧ e ≠ Ev.deleteLedger) := by
        rcases hshape with rfl | rfl
        · simp
        · intro e he
          rcases (by simpa using he : e = Ev.writeDefinition ∨ e = Ev.releaseSnapshots)
            with rfl | rfl
          · exact ⟨rfl, by simp, by simp, by simp⟩
          · exact ⟨rfl, by simp, by simp, by simp⟩
      refine ⟨Δ0 ++ Δ ++ Δf, ?_, ?_, ?_, ?_, ?_, ?_, ?_, ?_⟩
      · rw [htrf, htr, htr1]
        simp
      · simp only [List.append_assoc]
        exact noWriteBeforeSnap_snap_head _ _ hpre_snap
      · intro nx
        simp only [List.append_assoc]
        rw [adjOkW_append, hpre_adj, adjOkW_append, hadj]
        have : adjOkW (Δf ++ [Ev.failed e2]) nx = true := by
          apply adjOkW_of_no_trigger
          intro e he
          rcases List.mem_append.mp he with h | h
          · exact (hΔfprops e h).1
          · rcases List.mem_singleton.mp h with rfl
            rfl
        rw [this]
        rfl
      · apply deleteOnlyAfter_of_no_delete
        intro e he
        simp only [List.append_assoc, List.mem_append] at he
        rcases he with h | h | h | h
        · exact hpre_nodel e h
        · exact ((hns e h).2.2.1)
        · exact (hΔfprops e h).2.2.2
        · rcases List.mem_singleton.mp h with rfl
          simp
      · simp only [List.append_assoc]
        rw [copiesCovered_append, hpre_cov, copiesCovered_append, hcov]
        have : copiesCovered (C10Q bdisks cmp dom td dt)
            (lastWrite (lastWrite none Δ0) Δ) (Δf ++ [Ev.failed e2]) = true := by
          apply copiesCovered_of_no_copy
          intro e he d
          rcases List.mem_append.mp he with h | h
          · exact (hΔfprops e h).2.1 d
          · rcases List.mem_singleton.mp h with rfl
            simp
        rw [this]
        rfl
      · rw [htd6, hpres.2.2.1, htd1, htds]
      · intro _
        exact hl6
      · intro hcon
        rw [hd6] at hcon
        exact absurd hcon (by simp)
    | ok s6 =>
      simp only [hfres]
      rw [hfres] at hfin
      obtain ⟨htrf, hl6, htd6, hpi6⟩ := hfin
      refine ⟨Δ0 ++ Δ ++ [Ev.writeDefinition, Ev.releaseSnapshots, Ev.postBackup,
        Ev.deleteLedger], ?_, ?_, ?_, ?_, ?_, ?_, ?_, hl6⟩
      · rw [htrf, htr, htr1]
        simp
      · simp only [List.append_assoc]
        exact noWriteBeforeSnap_snap_head _ _ hpre_snap
      · intro nx
        simp only [List.append_assoc]
        rw [adjOkW_append, hpre_adj, adjOkW_append, hadj]
        have : adjOkW [Ev.writeDefinition, Ev.releaseSnapshots, Ev.postBackup,
            Ev.deleteLedger] nx = true := by
          apply adjOkW_of_no_trigger
          intro e he
          rcases (by simpa using he : e = Ev.writeDefinition ∨ e = Ev.releaseSnapshots ∨
            e = Ev.postBackup ∨ e = Ev.deleteLedger) with rfl | rfl | rfl | rfl <;> rfl
        rw [this]
        rfl
      · simp only [List.append_assoc]
        rw [deleteOnlyAfter_append, deleteOnlyAfter_append,
          deleteOnlyAfter_of_no_delete Δ0 false hpre_nodel,
          deleteOnlyAfter_of_no_delete Δ _ (fun e he => (hns e he).2.2.1),
          deleteOnlyAfter_finish_tail]
        rfl
      · simp only [List.append_assoc]
        rw [List.getLast?_append, List.getLast?_append]
        rfl
      · simp only [List.append_assoc]
        rw [copiesCovered_append, hpre_cov, copiesCovered_append, hcov]
        have : copiesCovered (C10Q bdisks cmp dom td dt)
            (lastWrite (lastWrite none Δ0) Δ)
            [Ev.writeDefinition, Ev.releaseSnapshots, Ev.postBackup,
              Ev.deleteLedger] = true := by
          apply copiesCovered_of_no_copy
          intro e he d
          rcases (by simpa using he : e = Ev.writeDefinition ∨ e = Ev.releaseSnapshots ∨
            e = Ev.postBackup ∨ e = Ev.deleteLedger) with rfl | rfl | rfl | rfl <;> simp
        rw [this]
        rfl
      · rw [List.filter_append, List.filter_append, hpre_nodisk, hfil, hds0]
        simp [isDiskEv]

theorem adjOkW_sw (pi : PendingInfo) (nx : Option Ev) :
    adjOkW [Ev.snap, Ev.writeLedger pi] nx = true := by
  cases nx with
  | none => rfl
  | some e2 => cases e2 <;> rfl

theorem adjOkW_swo (pi : PendingInfo) (p : String) (nx : Option Ev) :
    adjOkW [Ev.snap, Ev.writeLedger pi, Ev.openArchive p] nx = true := by
  cases nx with
  | none => rfl
  | some e2 => cases e2 <;> rfl

theorem start_try_body_spec (f : Faults) (dom : Domain) (td : String)
    (defn : Definition) (s : S)
    (htd : s.b.target_dir = some td)
    (hpend : s.b.pending_info = {})
    (hnodup : ∀ dp ∈ s.b.disks, alookup s.b.disks dp.1 = some dp.2) :
    TryPost (C10Q s.b.disks s.b.compression dom td s.w.now) s.b.disks s
      (DomBackup.start_try_body f dom td defn s) := by
  have hsnap := snapshot_and_save_date_spec f defn
    ⟨⟨s.b.dom, s.b.target_dir, s.b.disks, s.b.compression, s.b.compression_lvl,
      s.b.timeout, some ⟨s.b.disks, s.b.timeout, none⟩, s.b.callbacks_registrer,
      s.b.pending_info, true⟩, s.w, s.tr⟩
    ⟨s.b.disks, s.b.timeout, none⟩ rfl
  cases hsf : f.snap with
  | true =>
    simp only [DomBackup.start_try_body, hsnap.1 hsf]
    refine ⟨[], by simp, rfl, ?_, rfl, rfl, rfl, ?_, fun _ => rfl⟩
    · intro nx
      cases nx with
      | none => rfl
      | some e2 => cases e2 <;> rfl
    · intro hcon
      exact absurd (by simp [hpend]) hcon
  | false =>
    simp only [DomBackup.start_try_body, hsnap.2 hsf]
    cases hcmp : s.b.compression with
    | none =>
      exact loop_and_finish_spec f dom (BackupTarget.dir td) td s.w.now none
        s.b.disks _ _ _ s
        [Ev.snap, Ev.writeLedger (pendingOf { defn with date := some s.w.now }
          s.b.disks (mdOf ⟨s.b.disks, s.b.timeout, none⟩ s.w))]
        rfl rfl rfl rfl htd htd rfl rfl (by simp) hnodup
        ⟨_, rfl, fun dp hdp => by
          rw [acontains_map_self]
          unfold acontains
          rw [hnodup dp hdp]
          rfl⟩
        (fun tp h => nomatch h) rfl rfl (fun nx => adjOkW_sw _ nx) rfl
        (by
          intro e he
          rcases (by simpa using he :
            e = Ev.snap ∨ e = Ev.writeLedger (pendingOf
              { defn with date := some s.w.now } s.b.disks
              (mdOf ⟨s.b.disks, s.b.timeout, none⟩ s.w))) with rfl | rfl <;> simp)
        rfl
    | some c =>
      simp only [DomBackup.get_new_tar]
      cases hcol : s.w.fs.files.contains
          (canonicalArchivePath (some c) dom td s.w.now) with
      | true =>
        simp only [hcol, if_true, raiseAt]
        refine ⟨[Ev.snap, Ev.writeLedger (pendingOf { defn with date := some s.w.now }
          s.b.disks (mdOf ⟨s.b.disks, s.b.timeout, none⟩ s.w))],
          by simp, rfl, ?_, rfl, rfl, rfl, fun _ => by simp, ?_⟩
        · intro nx
          cases nx with
          | none => rfl
          | some e2 => cases e2 <;> rfl
        · intro hcon
          exact absurd hcon (by simp [pendingOf])
      | false =>
        simp only [hcol, Bool.false_eq_true, if_false]
        exact loop_and_finish_spec f dom
          (BackupTarget.tarFile (canonicalArchivePath (some c) dom td s.w.now))
          td s.w.now (some c) s.b.disks _ _ _ s
          [Ev.snap, Ev.writeLedger (pendingOf { defn with date := some s.w.now }
            s.b.disks (mdOf ⟨s.b.disks, s.b.timeout, none⟩ s.w)),
           Ev.openArchive (canonicalArchivePath (some c) dom td s.w.now)]
          rfl rfl rfl rfl htd htd rfl rfl (by simp) hnodup
          ⟨_, rfl, fun dp hdp => by
            rw [acontains_map_self]
            unfold acontains
            rw [hnodup dp hdp]
            rfl⟩
          (fun tp h => by injection h with h2; rw [← h2])
          (by simp) rfl (fun nx => adjOkW_swo _ _ nx) rfl
          (by
            intro e he
            rcases (by simpa using he :
              e = Ev.snap ∨ e = Ev.writeLedger (pendingOf
                { defn with date := some s.w.now } s.b.disks
                (mdOf ⟨s.b.disks, s.b.timeout, none⟩ s.w)) ∨
              e = Ev.openArchive (canonicalArchivePath (some c) dom td s.w.now))
              with rfl | rfl | rfl <;> simp)
          rfl

theorem noWriteBeforeSnap_extend (X Y : List Ev) (hX : noWriteBeforeSnap X = true)
    (hY : ∀ e ∈ Y, ∀ pi, e ≠ Ev.writeLedger pi) : noWriteBeforeSnap (X ++ Y) = true := by
  induction X with
  | nil => simpa using noWriteBeforeSnap_of_no_write Y hY
  | cons x xs ih =>
    cases x with
    | snap => rfl
    | writeLedger pi => simp [noWriteBeforeSnap] at hX
    | _ =>
      simp only [List.cons_append]
      simpa [noWriteBeforeSnap] using ih (by simpa [noWriteBeforeSnap] using hX)

theorem start_spec (f : Faults) (b : DomBackup) (w : World) (dom : Domain) (td : String)
    (hrun : b.running = false) (hdom : b.dom = some dom) (htd : b.target_dir = some td)
    (htdne : td ≠ "") (hpend : b.pending_info = {})
    (hnodup : ∀ dp ∈ b.disks, alookup b.disks dp.1 = some dp.2) :
    (∀ s2, DomBackup.start f ⟨b, w, []⟩ = .ok s2 →
      s2.b.running = false ∧
      noWriteBeforeSnap s2.tr = true ∧ adjOk s2.tr = true ∧
      deleteOnlyAfter false s2.tr = true ∧
      s2.tr.getLast? = some Ev.deleteLedger ∧
      copiesCovered (C10Q b.disks b.compression dom td w.now) none s2.tr = true ∧
      s2.tr.filter isDiskEv = b.disks.flatMap
        (fun dp => [Ev.copyDisk dp.1, Ev.cleanForDisk dp.1]) ∧
      s2.w.fs.ledger = none) ∧
    (∀ e s2, DomBackup.start f ⟨b, w, []⟩ = .error (e, s2) →
      s2.b.running = false ∧
      (∃ l1 l2, s2.tr = l1 ++ [Ev.failed e, Ev.cleanAbortedRun] ++ l2) ∧
      noWriteBeforeSnap s2.tr = true ∧ adjOk s2.tr = true ∧
      deleteOnlyAfter false s2.tr = true ∧
      copiesCovered (C10Q b.disks b.compression dom td w.now) none s2.tr = true ∧
      (w.fs.ledger = none → s2.w.fs.ledger = none)) := by
  have htry := start_try_body_spec f dom td
    { DomBackup.get_definition b dom with disks := [] } ⟨b, w, []⟩ htd hpend hnodup
  cases hres : DomBackup.start_try_body f dom td
      { DomBackup.get_definition b dom with disks := [] } ⟨b, w, []⟩ with
  | ok s1 =>
    rw [hres] at htry
    obtain ⟨Δ, htr, hnw, hadj, hdel, hlast, hcov, hfil, hled⟩ := htry
    have hstart : DomBackup.start f ⟨b, w, []⟩ = .ok { s1 with b.running := false } := by
      simp [DomBackup.start, hrun, hdom, htd, pyTruthyStr, htdne, hres]
    constructor
    · intro s2 heq
      rw [hstart] at heq
      injection heq with h2
      subst h2
      have htr2 : s1.tr = Δ := by simpa using htr
      refine ⟨rfl, ?_, ?_, ?_, ?_, ?_, ?_, hled⟩
      · rw [show ({ s1 with b.running := false } : S).tr = s1.tr from rfl, htr2]
        exact hnw
      · rw [show ({ s1 with b.running := false } : S).tr = s1.tr from rfl, htr2]
        exact hadj none
      · rw [show ({ s1 with b.running := false } : S).tr = s1.tr from rfl, htr2]
        exact hdel
      · rw [show ({ s1 with b.running := false } : S).tr = s1.tr from rfl, htr2]
        exact hlast
      · rw [show ({ s1 with b.running := false } : S).tr = s1.tr from rfl, htr2]
        exact hcov
      · rw [show ({ s1 with b.running := false } : S).tr = s1.tr from rfl, htr2]
        exact hfil
    · intro e s2 heq
      rw [hstart] at heq
      simp at heq
  | error es =>
    obtain ⟨e1, s1⟩ := es
    rw [hres] at htry
    obtain ⟨Δ, htr, hnw, hadj, hdel, hcov, htd1, hll, hln⟩ := htry
    obtain ⟨Δc, s3, hcok, hctr, hcev, hcrun, hctd, hcsome, hcnone, hcrec, hcsub, hcstr⟩ :=
      clean_aborted_spec f td s1 (by rw [htd1]; exact htd) hll
    have hstart : DomBackup.start f ⟨b, w, []⟩ =
        .error (e1, { s3 with b.running := false }) := by
      simp [DomBackup.start, hrun, hdom, htd, pyTruthyStr, htdne, hres, hcok]
    have hrest_ev : ∀ e2 ∈ [Ev.cleanAbortedRun] ++ Δc,
        (∀ pi, e2 ≠ Ev.writeLedger pi) ∧ trigger e2 = false ∧
        (∀ d, e2 ≠ Ev.copyDisk d) := by
      intro e2 he2
      rcases List.mem_append.mp he2 with h | h
      · rcases List.mem_singleton.mp h with rfl
        exact ⟨by simp, rfl, by simp⟩
      · rcases hcev e2 h with rfl | ⟨p, rfl⟩ | rfl
        · exact ⟨by simp, rfl, by simp⟩
        · exact ⟨by simp, rfl, by simp⟩
        · exact ⟨by simp, rfl, by simp⟩
    have htr3 : s3.tr = (Δ ++ [Ev.failed e1]) ++ ([Ev.cleanAbortedRun] ++ Δc) := by
      rw [hctr, htr]
      simp
    constructor
    · intro s2 heq
      rw [hstart] at heq
      simp at heq
    · intro e s2 heq
      rw [hstart] at heq
      injection heq with h2
      injection h2 with he hs
      subst he
      subst hs
      have htreq : ({ s3 with b.running := false } : S).tr = s3.tr := rfl
      refine ⟨rfl, ?_, ?_, ?_, ?_, ?_, ?_⟩
      · refine ⟨Δ, Δc, ?_⟩
        rw [htreq, htr3]
        simp
      · rw [htreq, htr3]
        exact noWriteBeforeSnap_extend _ _ hnw (fun e2 he2 => (hrest_ev e2 he2).1)
      · rw [show adjOk ({ s3 with b.running := false } : S).tr =
            adjOkW s3.tr none from rfl, htr3, adjOkW_append]
        rw [hadj, adjOkW_of_no_trigger _ _ (fun e2 he2 => (hrest_ev e2 he2).2.1)]
        rfl
      · rw [htreq, htr3, deleteOnlyAfter_append, hdel]
        rw [show deleteOnlyAfter (delAllowedAfter false (Δ ++ [Ev.failed e1]))
            ([Ev.cleanAbortedRun] ++ Δc) =
          deleteOnlyAfter true Δc from rfl, deleteOnlyAfter_true]
        rfl
      · rw [htreq, htr3, copiesCovered_append, hcov]
        rw [copiesCovered_of_no_copy _ _ _
          (fun e2 he2 d => (hrest_ev e2 he2).2.2 d)]
        rfl
      · intro hw
        by_cases hd : s1.b.pending_info.date = none
        · have h1 := (hcnone hd).1
          have h2 := hln hd
          rw [show ({ s3 with b.running := false } : S).w.fs.ledger =
            s3.w.fs.ledger from rfl, h1, h2]
          exact hw
        · exact (hcsome hd).2.1

/-! ## Claims C1, C2, C4, C10: the `start` run -/

/-- C1: for every `start()` run that passes the entry assertions, if an
exception is raised after the run has begun then `clean_aborted` runs
right after the raise (the trace shows `failed e` immediately followed by
`cleanAbortedRun`) and the original exception `e` is the one returned to
the caller; and on both exit paths (success and re-raise) the running
flag is false afterwards. -/
theorem C1_error_path (f : Faults) (b : DomBackup) (w : World) (dom : Domain)
    (td : String) (hrun : b.running = false) (hdom : b.dom = some dom)
    (htd : b.target_dir = some td) (htdne : td ≠ "") (hpend : b.pending_info = {})
    (hnodup : ∀ dp ∈ b.disks, alookup b.disks dp.1 = some dp.2) :
    (∀ s2, DomBackup.start f ⟨b, w, []⟩ = .ok s2 → s2.b.running = false) ∧
    (∀ e s2, DomBackup.start f ⟨b, w, []⟩ = .error (e, s2) →
      s2.b.running = false ∧
      ∃ l1 l2, s2.tr = l1 ++ [Ev.failed e, Ev.cleanAbortedRun] ++ l2) := by
  obtain ⟨hok, herr⟩ := start_spec f b w dom td hrun hdom htd htdne hpend hnodup
  exact ⟨fun s2 h => (hok s2 h).1,
    fun e s2 h => ⟨(herr e s2 h).1, (herr e s2 h).2.1⟩⟩

/-- C2: over a full `start` run launched with no ledger file on disk, the
ledger is never written before snapshotting begins, every snapshot event
and per-disk record event is immediately followed by a ledger write, the
ledger file is deleted only after the definition file was written or
cleanup began, and at the end of the run — success or abort — the ledger
file is gone. -/
theorem C2_ledger_existence (f : Faults) (b : DomBackup) (w : World) (dom : Domain)
    (td : String) (hrun : b.running = false) (hdom : b.dom = some dom)
    (htd : b.target_dir = some td) (htdne : td ≠ "") (hpend : b.pending_info = {})
    (hnodup : ∀ dp ∈ b.disks, alookup b.disks dp.1 = some dp.2)
    (hl : w.fs.ledger = none) :
    (∀ s2, DomBackup.start f ⟨b, w, []⟩ = .ok s2 →
      noWriteBeforeSnap s2.tr = true ∧ adjOk s2.tr = true ∧
      deleteOnlyAfter false s2.tr = true ∧
      s2.tr.getLast? = some Ev.deleteLedger ∧ s2.w.fs.ledger = none) ∧
    (∀ e s2, DomBackup.start f ⟨b, w, []⟩ = .error (e, s2) →
      noWriteBeforeSnap s2.tr = true ∧ adjOk s2.tr = true ∧
      deleteOnlyAfter false s2.tr = true ∧ s2.w.fs.ledger = none) := by
  obtain ⟨hok, herr⟩ := start_spec f b w dom td hrun hdom htd htdne hpend hnodup
  constructor
  · intro s2 h
    obtain ⟨_, h1, h2, h3, h4, _, _, h5⟩ := hok s2 h
    exact ⟨h1, h2, h3, h4, h5⟩
  · intro e s2 h
    obtain ⟨_, _, h1, h2, h3, _, h4⟩ := herr e s2 h
    exact ⟨h1, h2, h3, h4 hl⟩

/-- C4: on a successful `start` run the disk-processing events of the
trace are exactly one `copyDisk` immediately followed by one
`cleanForDisk` per disk, in the insertion order of the job's disk
mapping — per-disk snapshot releases are interleaved, never batched. -/
theorem C4_interleaved_release (f : Faults) (b : DomBackup) (w : World) (dom : Domain)
    (td : String) (hrun : b.running = false) (hdom : b.dom = some dom)
    (htd : b.target_dir = some td) (htdne : td ≠ "") (hpend : b.pending_info = {})
    (hnodup : ∀ dp ∈ b.disks, alookup b.disks dp.1 = some dp.2) :
    ∀ s2, DomBackup.start f ⟨b, w, []⟩ = .ok s2 →
      s2.tr.filter isDiskEv = b.disks.flatMap
        (fun dp => [Ev.copyDisk dp.1, Ev.cleanForDisk dp.1]) := by
  obtain ⟨hok, _⟩ := start_spec f b w dom td hrun hdom htd htdne hpend hnodup
  intro s2 h
  exact (hok s2 h).2.2.2.2.2.2.1

/-- C10: in every `start` run — whether it succeeds or raises anywhere —
each `copyDisk d` event happens at a point where the latest ledger write
already records, for `d`, the canonical target image filename of this run
(and, in archive mode, the canonical archive basename), so every
partially-written output is discoverable from the on-disk ledger. -/
theorem C10_ledger_covers_copies (f : Faults) (b : DomBackup) (w : World)
    (dom : Domain) (td : String) (hrun : b.running = false)
    (hdom : b.dom = some dom) (htd : b.target_dir = some td) (htdne : td ≠ "")
    (hpend : b.pending_info = {})
    (hnodup : ∀ dp ∈ b.disks, alookup b.disks dp.1 = some dp.2) :
    (∀ s2, DomBackup.start f ⟨b, w, []⟩ = .ok s2 →
      copiesCovered (C10Q b.disks b.compression dom td w.now) none s2.tr = true) ∧
    (∀ e s2, DomBackup.start f ⟨b, w, []⟩ = .error (e, s2) →
      copiesCovered (C10Q b.disks b.compression dom td w.now) none s2.tr = true) := by
  obtain ⟨hok, herr⟩ := start_spec f b w dom td hrun hdom htd htdne hpend hnodup
  exact ⟨fun s2 h => (hok s2 h).2.2.2.2.2.1,
    fun e s2 h => (herr e s2 h).2.2.2.2.2.1⟩

/-- Witness for C1 at the concrete job, with the fault-free oracle. -/
theorem C1_witness :
    (bRun.running = false ∧ bRun.dom = some domRun ∧
     bRun.target_dir = some ("/backup") ∧ bRun.pending_info = {} ∧
     (∀ dp ∈ bRun.disks, alookup bRun.disks dp.1 = some dp.2)) ∧
    ((∀ s2, DomBackup.start {} ⟨bRun, wRun, []⟩ = .ok s2 →
       s2.b.running = false) ∧
     (∀ e s2, DomBackup.start {} ⟨bRun, wRun, []⟩ = .error (e, s2) →
       s2.b.running = false ∧
       ∃ l1 l2, s2.tr = l1 ++ [Ev.failed e, Ev.cleanAbortedRun] ++ l2)) :=
  ⟨⟨rfl, rfl, rfl, rfl, by decide⟩,
   C1_error_path {} bRun wRun domRun ("/backup") rfl rfl rfl (by decide) rfl
     (by decide)⟩

/-- Witness for C2 at the concrete job (initial world has no ledger). -/
theorem C2_witness :
    (bRun.running = false ∧ wRun.fs.ledger = none) ∧
    ((∀ s2, DomBackup.start {} ⟨bRun, wRun, []⟩ = .ok s2 →
       noWriteBeforeSnap s2.tr = true ∧ adjOk s2.tr = true ∧
       deleteOnlyAfter false s2.tr = true ∧
       s2.tr.getLast? = some Ev.deleteLedger ∧ s2.w.fs.ledger = none) ∧
     (∀ e s2, DomBackup.start {} ⟨bRun, wRun, []⟩ = .error (e, s2) →
       noWriteBeforeSnap s2.tr = true ∧ adjOk s2.tr = true ∧
       deleteOnlyAfter false s2.tr = true ∧ s2.w.fs.ledger = none)) :=
  ⟨⟨rfl, rfl⟩,
   C2_ledger_existence {} bRun wRun domRun ("/backup") rfl rfl rfl (by decide)
     rfl (by decide) rfl⟩

/-- Witness for C4 at the concrete job. -/
theorem C4_witness :
    (bRun.running = false ∧ bRun.disks = domRun.attachedDisks) ∧
    (∀ s2, DomBackup.start {} ⟨bRun, wRun, []⟩ = .ok s2 →
      s2.tr.filter isDiskEv = bRun.disks.flatMap
        (fun dp => [Ev.copyDisk dp.1, Ev.cleanForDisk dp.1])) :=
  ⟨⟨rfl, rfl⟩,
   C4_interleaved_release {} bRun wRun domRun ("/backup") rfl rfl rfl (by decide)
     rfl (by decide)⟩

/-- Witness for C10 at the concrete job. -/
theorem C10_witness :
    (bRun.running = false ∧ bRun.pending_info = {}) ∧
    ((∀ s2, DomBackup.start {} ⟨bRun, wRun, []⟩ = .ok s2 →
       copiesCovered (C10Q bRun.disks bRun.compression domRun ("/backup")
         wRun.now) none s2.tr = true) ∧
     (∀ e s2, DomBackup.start {} ⟨bRun, wRun, []⟩ = .error (e, s2) →
       copiesCovered (C10Q bRun.disks bRun.compression domRun ("/backup")
         wRun.now) none s2.tr = true)) :=
  ⟨⟨rfl, rfl⟩,
   C10_ledger_covers_copies {} bRun wRun domRun ("/backup") rfl rfl rfl
     (by decide) rfl (by decide)⟩

/-! ## Claim C3: crash recovery -/

/-- C3: `clean_aborted` on a job whose pending ledger is present (stamped
with a date) always succeeds — for every deletion-fault oracle — appends
only cleanup events (snapshot release, file deletions, ledger deletion)
ending with the ledger deletion, deletes the ledger file and resets the
pending dict; when no coordinator handle exists but the ledger records
snapshotted disks, the run starts by releasing the snapshot resources of
a coordinator reconstructed from the recorded disks; and when no deletion
fails, the recorded archive (or every recorded per-disk output file) is
absent afterwards, leaving no orphaned artifacts. -/
theorem C3_clean_aborted_recovery (s : S) (td : String) (pi : PendingInfo) (dt : Nat)
    (htd : s.b.target_dir = some td)
    (hpi : s.b.pending_info = pi)
    (hdt : pi.date = some dt)
    (hlg : s.w.fs.ledger = some pi) :
    ∀ f, ∃ Δc s2, DomBackup.clean_aborted f s = .ok s2 ∧
      s2.tr = s.tr ++ [Ev.cleanAbortedRun] ++ Δc ∧
      (∀ e ∈ Δc, e = Ev.releaseSnapshots ∨ (∃ p, e = Ev.deleteFile p) ∨
        e = Ev.deleteLedger) ∧
      Δc.getLast? = some Ev.deleteLedger ∧
      s2.w.fs.ledger = none ∧ s2.b.pending_info = {} ∧
      (s.b.ext_snapshot_helper = none → pyTruthyList pi.disks = true →
        Δc.head? = some Ev.releaseSnapshots ∧
        s2.w.openSnaps = s.w.openSnaps.filter
          (fun d => !((reconstructedMetadata (pi.disks.getD [])).disks.any
            (fun p => p.1 == d)))) ∧
      (∀ x, x ∈ s2.w.fs.files → x ∈ s.w.fs.files) ∧
      ((∀ p, f.deleteFail p = false) →
        (∀ t, pi.tar = some t → t ≠ "" → pathJoin td t ∉ s2.w.fs.files) ∧
        (pyTruthyStr pi.tar = false →
          ∀ pd ∈ pi.disks.getD [], pyTruthyStr pd.2.target = true →
            pathJoin td (pd.2.target.getD ("")) ∉ s2.w.fs.files)) := by
  intro f
  obtain ⟨Δc, s2, hok, htr, hev, _, _, hsome, _, hrec, hsub, hstr⟩ :=
    clean_aborted_spec f td s htd (fun _ => by rw [hlg]; simp)
  have hd : s.b.pending_info.date ≠ none := by
    rw [hpi, hdt]
    simp
  obtain ⟨hlast, hled, hpend2⟩ := hsome hd
  rw [hpi] at hrec hstr
  refine ⟨Δc, s2, hok, htr, hev, hlast, hled, hpend2, hrec, hsub, hstr⟩

/-- Witness for C3 at the concrete crashed job. -/
theorem C3_witness :
    (sCrash.b.target_dir = some ("/backup") ∧
     sCrash.b.pending_info = piCrash ∧ piCrash.date = some 5 ∧
     sCrash.w.fs.ledger = some piCrash) ∧
    (∀ f, ∃ Δc s2, DomBackup.clean_aborted f sCrash = .ok s2 ∧
      s2.tr = sCrash.tr ++ [Ev.cleanAbortedRun] ++ Δc ∧
      (∀ e ∈ Δc, e = Ev.releaseSnapshots ∨ (∃ p, e = Ev.deleteFile p) ∨
        e = Ev.deleteLedger) ∧
      Δc.getLast? = some Ev.deleteLedger ∧
      s2.w.fs.ledger = none ∧ s2.b.pending_info = {} ∧
      (sCrash.b.ext_snapshot_helper = none → pyTruthyList piCrash.disks = true →
        Δc.head? = some Ev.releaseSnapshots ∧
        s2.w.openSnaps = sCrash.w.openSnaps.filter
          (fun d => !((reconstructedMetadata (piCrash.disks.getD [])).disks.any
            (fun p => p.1 == d)))) ∧
      (∀ x, x ∈ s2.w.fs.files → x ∈ sCrash.w.fs.files) ∧
      ((∀ p, f.deleteFail p = false) →
        (∀ t, piCrash.tar = some t → t ≠ "" → pathJoin ("/backup") t ∉ s2.w.fs.files) ∧
        (pyTruthyStr piCrash.tar = false →
          ∀ pd ∈ piCrash.disks.getD [], pyTruthyStr pd.2.target = true →
            pathJoin ("/backup") (pd.2.target.getD ("")) ∉ s2.w.fs.files))) :=
  ⟨⟨rfl, rfl, rfl, rfl⟩,
   C3_clean_aborted_recovery sCrash ("/backup") piCrash 5 rfl rfl rfl rfl⟩

/-- When the pending ledger records no archive name and no produced
per-disk outputs, `clean_aborted` deletes no data file. -/
theorem clean_aborted_preserves_files (f : Faults) (s : S)
    (htar : pyTruthyStr s.b.pending_info.tar = false)
    (hnt : ∀ pd ∈ (s.b.pending_info.disks).getD [],
      pyTruthyStr pd.2.target = false) :
    ∀ s2, DomBackup.clean_aborted f s = .ok s2 → s2.w.fs.files = s.w.fs.files := by
  have htail : ∀ sC : S, sC.b.pending_info = s.b.pending_info →
      sC.w.fs.files = s.w.fs.files →
      ∀ s2, DomBackup.clean_aborted_phase2 f sC = .ok s2 →
        s2.w.fs.files = s.w.fs.files := by
    intro sC hpi hfiles s2 heq
    have hif : (if pyTruthyStr sC.b.pending_info.tar then
        DomBackup.clean_aborted_tar f sC
        else DomBackup.clean_aborted_non_tar_img f sC) = .ok sC := by
      rw [hpi, htar]
      simp only [Bool.false_eq_true, if_false, DomBackup.clean_aborted_non_tar_img]
      exact clean_targets_no_targets f _ sC (by rw [hpi]; exact hnt)
    rw [clean_aborted_phase2_ok f sC sC hif] at heq
    cases hdt : sC.b.pending_info.date with
    | none =>
      rw [clean_pending_info_none sC hdt, swallowKeyError_key] at heq
      injection heq with h2
      rw [← h2]
      exact hfiles
    | some d =>
      cases hlv : sC.w.fs.ledger with
      | none =>
        rw [show DomBackup.clean_pending_info sC = .error (.fileNotFoundError, sC) from by
          simp [DomBackup.clean_pending_info, hdt, hlv]] at heq
        rw [show swallowKeyError (.error (.fileNotFoundError, sC)) =
          .error (.fileNotFoundError, sC) from rfl] at heq
        cases heq
      | some pi =>
        rw [clean_pending_info_some sC d pi hdt hlv, swallowKeyError_ok] at heq
        injection heq with h2
        rw [← h2]
        exact hfiles
  intro s2 heq
  cases hh : s.b.ext_snapshot_helper with
  | none =>
    cases hpl : pyTruthyList s.b.pending_info.disks with
    | true =>
      rw [clean_aborted_red_rec f s hh hpl] at heq
      refine htail _ ?_ ?_ s2 heq <;> rfl
    | false =>
      rw [clean_aborted_red_none f s hh hpl] at heq
      refine htail _ ?_ ?_ s2 heq <;> rfl
  | some h =>
    rw [clean_aborted_red_helper f s h hh] at heq
    refine htail _ ?_ ?_ s2 heq
    · rfl
    · simp [domExtSnapshotClean_fs]

/-! ## Claim C6: archive collision -/

theorem pendingOf_targets_none (defn : Definition) (disks : List (String × DiskProps))
    (md : SnapshotMetadata) :
    ∀ pd ∈ ((pendingOf defn disks md).disks).getD [], pd.2.target = none := by
  intro pd hm
  simp only [pendingOf, Option.getD_some] at hm
  obtain ⟨dp, _, rfl⟩ := List.mem_map.mp hm
  rfl

/-- The try body under an archive collision: the snapshot is taken and
the ledger written, then `get_new_tar` raises `archiveExistsError`
without creating or opening anything. -/
theorem try_body_collision (f : Faults) (dom : Domain) (td c : String)
    (defn0 : Definition) (b : DomBackup) (w : World)
    (hcmp : b.compression = some c) (hsnap : f.snap = false)
    (hcol2 : w.fs.files.contains
      (canonicalArchivePath (some c) dom td w.now) = true) :
    DomBackup.start_try_body f dom td defn0 ⟨b, w, []⟩ =
      .error (.archiveExistsError,
        ⟨⟨b.dom, b.target_dir, b.disks, b.compression, b.compression_lvl,
          b.timeout,
          some ⟨b.disks, b.timeout, some (mdOf ⟨b.disks, b.timeout, none⟩ w)⟩,
          b.callbacks_registrer,
          pendingOf { defn0 with date := some w.now } b.disks
            (mdOf ⟨b.disks, b.timeout, none⟩ w), true⟩,
         ⟨⟨w.fs.files,
           some (pendingOf { defn0 with date := some w.now } b.disks
             (mdOf ⟨b.disks, b.timeout, none⟩ w)), w.fs.definitionFile⟩,
          w.openSnaps ++ b.disks.map (fun dp => dp.1), w.now⟩,
         [Ev.snap,
          Ev.writeLedger (pendingOf { defn0 with date := some w.now } b.disks
            (mdOf ⟨b.disks, b.timeout, none⟩ w)),
          Ev.failed .archiveExistsError]⟩) := by
  have hsnapSpec := snapshot_and_save_date_spec f defn0
    ⟨⟨b.dom, b.target_dir, b.disks, b.compression, b.compression_lvl, b.timeout,
      some ⟨b.disks, b.timeout, none⟩, b.callbacks_registrer, b.pending_info, true⟩,
      w, []⟩
    ⟨b.disks, b.timeout, none⟩ rfl
  simp only [DomBackup.start_try_body]
  rw [hsnapSpec.2 hsnap]
  simp only [hcmp, DomBackup.get_new_tar, hcol2, if_true, raiseAt]
  rfl

/-- C6: when the job archives (a compression mode is set) and a file
already exists at the canonical archive path at archive-open time, the
run raises `archiveExistsError` as a mid-run error — `clean_aborted`
runs, the original error is the one returned — no archive is ever opened
during the run, and the file set is exactly as before: the pre-existing
file is neither overwritten, renamed nor deleted. -/
theorem C6_archive_collision (f : Faults) (b : DomBackup) (w : World) (dom : Domain)
    (td c : String)
    (hrun : b.running = false) (hdom : b.dom = some dom)
    (htd : b.target_dir = some td) (htdne : td ≠ "")
    (_hpend : b.pending_info = {})
    (hcmp : b.compression = some c) (hsnap : f.snap = false)
    (hcol : canonicalArchivePath b.compression dom td w.now ∈ w.fs.files) :
    ∃ s2, DomBackup.start f ⟨b, w, []⟩ = .error (.archiveExistsError, s2) ∧
      s2.w.fs.files = w.fs.files ∧
      canonicalArchivePath b.compression dom td w.now ∈ s2.w.fs.files ∧
      (∀ p, Ev.openArchive p ∉ s2.tr) ∧
      Ev.cleanAbortedRun ∈ s2.tr := by
  have hcol2 : w.fs.files.contains
      (canonicalArchivePath (some c) dom td w.now) = true := by
    rw [← hcmp]
    simpa using hcol
  set pi0 : PendingInfo := pendingOf
    { { DomBackup.get_definition b dom with disks := [] } with date := some w.now }
    b.disks (mdOf ⟨b.disks, b.timeout, none⟩ w) with hpi0
  set sErr : S :=
    ⟨⟨b.dom, b.target_dir, b.disks, b.compression, b.compression_lvl, b.timeout,
      some ⟨b.disks, b.timeout, some (mdOf ⟨b.disks, b.timeout, none⟩ w)⟩,
      b.callbacks_registrer, pi0, true⟩,
     ⟨⟨w.fs.files, some pi0, w.fs.definitionFile⟩,
      w.openSnaps ++ b.disks.map (fun dp => dp.1), w.now⟩,
     [Ev.snap, Ev.writeLedger pi0, Ev.failed .archiveExistsError]⟩ with hsErr
  have htry : DomBackup.start_try_body f dom td
      { DomBackup.get_definition b dom with disks := [] } ⟨b, w, []⟩ =
      .error (.archiveExistsError, sErr) := by
    rw [hsErr, hpi0]
    exact try_body_collision f dom td c
      { DomBackup.get_definition b dom with disks := [] } b w hcmp hsnap hcol2
  have htar0 : pyTruthyStr sErr.b.pending_info.tar = false := by
    rw [hsErr, hpi0]
    rfl
  have hnt0 : ∀ pd ∈ (sErr.b.pending_info.disks).getD [],
      pyTruthyStr pd.2.target = false := by
    rw [hsErr, hpi0]
    intro pd hm
    rw [pendingOf_targets_none _ _ _ pd hm]
    rfl
  obtain ⟨Δc, s3, hcok, hctr, hcev, hcrun, hctd, hcsome, hcnone, hcrec, hcsub, hcstr⟩ :=
    clean_aborted_spec f td sErr (by rw [hsErr]; exact htd)
      (fun _ => by rw [hsErr]; simp)
  have hfeq := clean_aborted_preserves_files f sErr htar0 hnt0 s3 hcok
  have hstart : DomBackup.start f ⟨b, w, []⟩ =
      .error (.archiveExistsError, { s3 with b.running := false }) := by
    simp [DomBackup.start, hrun, hdom, htd, pyTruthyStr, htdne, htry, hcok]
  refine ⟨{ s3 with b.running := false }, hstart, ?_, ?_, ?_, ?_⟩
  · show s3.w.fs.files = w.fs.files
    rw [hfeq, hsErr]
  · show canonicalArchivePath b.compression dom td w.now ∈ s3.w.fs.files
    rw [hfeq, hsErr]
    exact hcol
  · intro p hp
    have hp2 : Ev.openArchive p ∈ s3.tr := hp
    rw [hctr] at hp2
    rcases List.mem_append.mp hp2 with h | h
    · rcases List.mem_append.mp h with h | h
      · rw [hsErr] at h
        simp at h
      · simp at h
    · rcases hcev _ h with h2 | ⟨q, h2⟩ | h2 <;> cases h2
  · show Ev.cleanAbortedRun ∈ s3.tr
    rw [hctr]
    simp

/-- Witness for C6 at the concrete archiving job with a colliding file. -/
theorem C6_witness :
    (bTar.running = false ∧ bTar.compression = some ("xz") ∧
     canonicalArchivePath bTar.compression domRun ("/backup") wCol.now ∈
       wCol.fs.files) ∧
    (∃ s2, DomBackup.start {} ⟨bTar, wCol, []⟩ =
        .error (.archiveExistsError, s2) ∧
      s2.w.fs.files = wCol.fs.files ∧
      canonicalArchivePath bTar.compression domRun ("/backup") wCol.now ∈
        s2.w.fs.files ∧
      (∀ p, Ev.openArchive p ∉ s2.tr) ∧
      Ev.cleanAbortedRun ∈ s2.tr) :=
  ⟨⟨rfl, rfl, List.mem_singleton.mpr rfl⟩,
   C6_archive_collision {} bTar wCol domRun ("/backup") ("xz") rfl rfl rfl
     (by decide) rfl rfl rfl (List.mem_singleton.mpr rfl)⟩
